import Mathlib

/-!
Verification development for the `collector` field-data collector.

The definitions below are a shallow embedding of the Rust sources:

* `src/collector-core/src/core/point.rs`              — the `Val` tagged union;
* `src/collector-core/src/center/data_center.rs`      — the data center
  (`ingest` / `read` / `snapshot` on the per-device latest-value map);
* `src/collector-core/src/config/modbus_conf.rs`      — the point catalog row
  (`ModbusConfig`, `ModbusDataType`, `ByteOrder`, `RegisterType`);
* `src/collector-core/src/dev/modbus_dev/block.rs`    — the block planner
  (`Blocks::try_from`), the read decoder (`decode_register_value`,
  `to_val_numeric`) and the reply parser (`Blocks::parse`);
* `src/collector-core/src/dev/modbus_dev/downlink.rs` — the write planner
  (`WritePlan::build`, `encode_registers`, `scale_to_raw`, range checks,
  block merging);
* `src/collector-core/src/dev/modbus_dev/runner.rs`   — the device runner
  (`run`, `run_connected`, the batch reader helpers, `build_batches`) and
  `src/collector-core/src/dev/modbus_dev/batch.rs` (`range_end`).

Modelling conventions: `u16` values are `Nat` together with explicit wrap-around
(`% 65536`) exactly where the Rust arithmetic can overflow (release-profile
two's-complement semantics; the debug profile would abort at the same spots, a
difference that is called out where it matters).  `f64`/`f32` scalars are
modelled as exact rationals `ℚ`; the explicit rounding steps of the code
(`f64::round`, `f64::fract`, saturating `as` casts) are modelled faithfully as
operations on `ℚ`.  Channels, tasks and logging are abstracted into event
scripts and effect traces for the runner.
-/

/-- The `Val` tagged union of `core/point.rs`.  The `F32` payload is an exact
rational standing for the floating-point number. -/
inductive Val where
  | U8 (v : Nat)
  | I8 (v : Int)
  | I16 (v : Int)
  | I32 (v : Int)
  | U16 (v : Nat)
  | U32 (v : Nat)
  | F32 (v : ℚ)
deriving DecidableEq, Repr

/-- Numeric content of a `Val` (used to compare written and read-back values). -/
def valNum : Val → ℚ
  | .U8 v => v
  | .I8 v => v
  | .I16 v => v
  | .I32 v => v
  | .U16 v => v
  | .U32 v => v
  | .F32 v => v

/-- An ingest/dispatch payload item, `Entry` of `center/data_center.rs`. -/
structure Entry where
  key : String
  value : Val
deriving DecidableEq, Repr

/-- Lifecycle states of `dev/mod.rs` (one byte per device). -/
inductive LifecycleState where
  | New | Initializing | Ready | Starting | Connecting
  | Connected | Running | Stopping | Stopped | Failed
deriving DecidableEq, Repr

/-! ## Data center (`center/data_center.rs`)

The per-device latest-value map (`DashMap<String, DashMap<String, Entry>>`) is
modelled as an association list of devices, each holding an association list of
entries keyed by the point name.  `DashMap::insert` replaces the value stored
under an existing key, which `insertEntry` mirrors by an in-place replacement. -/

/-- Lookup of the latest value stored for a key in one device's map. -/
def lookupVal : List Entry → String → Option Val
  | [], _ => none
  | e :: rest, k => if e.key = k then some e.value else lookupVal rest k

/-- Insert an entry, replacing any entry already stored under the same key
(`DashMap::insert` semantics). -/
def insertEntry : List Entry → Entry → List Entry
  | [], p => [p]
  | e :: rest, p => if e.key = p.key then p :: rest else e :: insertEntry rest p

/-- One step of `DataCenter::ingest`: upsert only if the stored value differs
structurally from the incoming one (`old_t.value() != new_val`). -/
def ingestOne (m : List Entry) (p : Entry) : List Entry :=
  match lookupVal m p.key with
  | some oldv => if oldv ≠ p.value then insertEntry m p else m
  | none => insertEntry m p

/-- The body of `DataCenter::ingest` for one device: fold `ingestOne` over the
payload, left to right. -/
def ingestEntries (m : List Entry) (es : List Entry) : List Entry :=
  es.foldl ingestOne m

/-- The process-wide latest-value table, keyed by device id. -/
def DataCenter : Type := List (String × List Entry)

/-- Device lookup in the outer map. -/
def DataCenter.lookupDev : DataCenter → String → Option (List Entry)
  | [], _ => none
  | (d, m) :: rest, dev => if d = dev then some m else DataCenter.lookupDev rest dev

/-- Store a device's map, replacing the registered one or creating the device
entry (the `entry(dev_id).or_default()` step of `ingest`). -/
def DataCenter.storeDev : DataCenter → String → List Entry → DataCenter
  | [], dev, m => [(dev, m)]
  | (d, dm) :: rest, dev, m =>
    if d = dev then (dev, m) :: rest else (d, dm) :: DataCenter.storeDev rest dev m

/-- `DataCenter::ingest(dev, msg)`: fetch-or-create the device map, then upsert
each entry whose value differs from the stored one. -/
def DataCenter.ingest (c : DataCenter) (dev : String) (es : List Entry) : DataCenter :=
  DataCenter.storeDev c dev (ingestEntries ((DataCenter.lookupDev c dev).getD []) es)

/-- `DataCenter::read(dev, key)`: latest value by key (the entry's `Val`). -/
def DataCenter.read (c : DataCenter) (dev : String) (k : String) : Option Val :=
  (DataCenter.lookupDev c dev).bind (fun m => lookupVal m k)

/-- `DataCenter::snapshot(dev)`: copy of the device's current map. -/
def DataCenter.snapshot (c : DataCenter) (dev : String) : Option (List Entry) :=
  DataCenter.lookupDev c dev

/-- A sequence of `ingest` calls against the same device. -/
def ingestCalls (c : DataCenter) (dev : String) (css : List (List Entry)) : DataCenter :=
  css.foldl (fun acc es => DataCenter.ingest acc dev es) c

/-- Value of the last entry of a list (the most recent payload for a key after
filtering). -/
def lastVal : List Entry → Option Val
  | [] => none
  | [e] => some e.value
  | _ :: e2 :: rest => lastVal (e2 :: rest)

def bcuId : String := "BCU"

def sohKey : String := "SOH"

def sohEntry : Entry := { key := sohKey, value := Val.F32 100 }

/-! ## Point catalog (`config/modbus_conf.rs`) -/

/-- The Modbus data types of a catalog row. -/
inductive ModbusDataType where
  | Bool | U16 | I16 | U32 | I32
deriving DecidableEq, Repr

/-- Width in registers derived from the data type (`ModbusDataType::quantity`). -/
def ModbusDataType.quantity : ModbusDataType → Nat
  | .U32 | .I32 => 2
  | _ => 1

/-- Byte orders of the catalog. -/
inductive ByteOrder where
  | AB | BA | ABCD | CDAB
deriving DecidableEq, Repr

/-- The four Modbus register classes, ordered as their discriminants
(`Coils=1 < DiscreteInputs=2 < HoldingRegisters=3 < InputRegisters=4`), which
is also the `BTreeMap` iteration order used while grouping. -/
inductive RegisterType where
  | Coils | DiscreteInputs | HoldingRegisters | InputRegisters
deriving DecidableEq, Repr

/-- A catalog row (`ModbusConfig`).  `register_address` is a `u16` (theorems
carry the `< 65536` bound); `scale`/`offset` are `f64`, modelled as exact
rationals; `quantity` is the width-in-registers field used by the runner's
batch reader. -/
structure ModbusConfig where
  id : Nat
  name : String
  data_type : ModbusDataType
  unit : Option String
  remarks : Option String
  register_address : Nat
  register_type : RegisterType
  quantity : Nat
  byte_order : Option ByteOrder
  scale : ℚ
  offset : ℚ
deriving DecidableEq, Repr

/-! ## u16 arithmetic

`u16` operations of the sources, with release-profile wrap-around made
explicit: addition and subtraction act modulo `2^16`, `saturating_add`
clamps at `0xFFFF`. -/

/-- Wrapping `u16` addition. -/
def wadd16 (a b : Nat) : Nat := (a + b) % 65536

/-- Wrapping `u16` subtraction (for operands below `2^16`). -/
def wsub16 (a b : Nat) : Nat := (a + 65536 - b) % 65536

/-- `u16::saturating_add`. -/
def satAdd16 (a b : Nat) : Nat := min (a + b) 65535

/-! ## Block planner (`dev/modbus_dev/block.rs`) -/

/-- `BuildBlocksError` of `block.rs`. -/
inductive BuildBlocksError where
  | Overlap (register_type : RegisterType) (block_start : Nat) (block_end : Nat)
      (next_start : Nat)
deriving DecidableEq, Repr

/-- A region: the portion of a block belonging to one catalog point. -/
structure Region where
  cfg : ModbusConfig
  offset : Nat
  width : Nat
deriving DecidableEq, Repr

/-- A planned block. -/
structure Block where
  register_type : RegisterType
  start : Nat
  len : Nat
  regions : List Region
deriving DecidableEq, Repr

/-- The open block of the sweep (`start`, `end_excl`, accumulated regions). -/
structure CurBlock where
  start : Nat
  endExcl : Nat
  regions : List Region
deriving DecidableEq, Repr

/-- Per-class length limits of `Blocks::try_from`: 2000 for the bit classes,
120 for the register classes. -/
def maxLenFor : RegisterType → Nat
  | .Coils | .DiscreteInputs => 2000
  | .HoldingRegisters | .InputRegisters => 120

/-- Open a fresh block at a point (outer-loop head of the sweep). -/
def newCur (first : ModbusConfig) : CurBlock :=
  { start := first.register_address
    endExcl := wadd16 first.register_address first.data_type.quantity
    regions := [{ cfg := first, offset := 0, width := first.data_type.quantity }] }

/-- Close the open block (`blocks.push`), computing `len = end_excl - start`
in `u16` arithmetic. -/
def closeBlock (rt : RegisterType) (cur : CurBlock) : Block :=
  { register_type := rt
    start := cur.start
    len := wsub16 cur.endExcl cur.start
    regions := cur.regions }

/-- One step of the inner sweep of `Blocks::try_from`: merge a contiguous
point while the length limit allows, close the block on a length break or a
gap, fail the whole plan on an overlap. -/
def sweepStep (rt : RegisterType) (st : List Block × CurBlock) (next : ModbusConfig) :
    Except BuildBlocksError (List Block × CurBlock) :=
  let done := st.1
  let cur := st.2
  let next_start := next.register_address
  if next_start = cur.endExcl then
    let next_w := next.data_type.quantity
    let cur_len := wsub16 cur.endExcl cur.start
    if maxLenFor rt < satAdd16 cur_len next_w then
      .ok (done ++ [closeBlock rt cur], newCur next)
    else
      .ok (done,
        { start := cur.start
          endExcl := wadd16 cur.endExcl next_w
          regions := cur.regions ++
            [{ cfg := next, offset := wsub16 next_start cur.start, width := next_w }] })
  else if cur.endExcl < next_start then
    .ok (done ++ [closeBlock rt cur], newCur next)
  else
    .error (.Overlap rt cur.start cur.endExcl next_start)

/-- Stable insertion of a point into an address-sorted list: the point goes
before the first greater-or-equal address.  The inserted point always comes
from earlier in the catalog than the already-sorted tail, so placing it ahead
of equal addresses preserves the catalog order among duplicates. -/
def insertByAddr (c : ModbusConfig) : List ModbusConfig → List ModbusConfig
  | [] => [c]
  | x :: rest =>
    if x.register_address < c.register_address then x :: insertByAddr c rest
    else c :: x :: rest

/-- Stable sort by `register_address`.  `Vec::sort_by_key` is a stable sort,
and a stable sort's output is uniquely determined by the key order and the
input order, so insert-before-first-greater-or-equal insertion sort models it
exactly, duplicates included. -/
def sortByAddr : List ModbusConfig → List ModbusConfig
  | [] => []
  | c :: rest => insertByAddr c (sortByAddr rest)

/-- The group for one register class, in catalog order (`BTreeMap` grouping
keeps insertion order within a class), then sorted by `register_address`
(`sort_by_key`). -/
def sortedGroup (rt : RegisterType) (value : List ModbusConfig) : List ModbusConfig :=
  sortByAddr (value.filter (fun c => c.register_type = rt))

/-- Plan one register class: sweep the sorted group. -/
def planGroup (rt : RegisterType) (value : List ModbusConfig) :
    Except BuildBlocksError (List Block) :=
  match sortedGroup rt value with
  | [] => .ok []
  | first :: rest => do
    let st ← rest.foldlM (sweepStep rt) ([], newCur first)
    .ok (st.1 ++ [closeBlock rt st.2])

/-- `Blocks::try_from`: plan the four classes in `BTreeMap` key order and
concatenate (an absent class contributes the empty list). -/
def Blocks.tryFrom (value : List ModbusConfig) : Except BuildBlocksError (List Block) := do
  let b1 ← planGroup .Coils value
  let b2 ← planGroup .DiscreteInputs value
  let b3 ← planGroup .HoldingRegisters value
  let b4 ← planGroup .InputRegisters value
  .ok (b1 ++ b2 ++ b3 ++ b4)

/-! ## Read decoder (`block.rs`: `decode_register_value` and helpers) -/

/-- Truncation of a rational toward zero (`f64::trunc`). -/
def ratTrunc (q : ℚ) : Int := if 0 ≤ q then ⌊q⌋ else -⌊-q⌋

/-- `f64::fract`: the self-signed fractional part `x - x.trunc()`. -/
def rustFract (q : ℚ) : ℚ := q - ratTrunc q

/-- `f64::round`: round half away from zero. -/
def rustRound (q : ℚ) : Int :=
  if 0 ≤ q then ⌊q + 1 / 2⌋ else -⌊1 / 2 - q⌋

/-- Saturating `f64 as u32` cast (truncate toward zero, clamp to `u32`). -/
def rustAsU32 (q : ℚ) : Nat :=
  if q ≤ 0 then 0 else min (ratTrunc q).toNat 4294967295

/-- Saturating `f64 as i32` cast. -/
def rustAsI32 (q : ℚ) : Int :=
  max (-2147483648) (min 2147483647 (ratTrunc q))

/-- Reinterpret a `u16` as an `i16` (`i16::from_ne_bytes(x.to_ne_bytes())`). -/
def i16_of_u16 (v : Nat) : Int :=
  if v < 32768 then (v : Int) else (v : Int) - 65536

/-- Reinterpret a `u32` as an `i32` (`raw as i32`). -/
def i32_of_u32 (v : Nat) : Int :=
  if v < 2147483648 then (v : Int) else (v : Int) - 4294967296

/-- Two's-complement image of an `i16` in a `u16` (`v as u16`). -/
def u16_of_i16 (v : Int) : Nat := (v % 65536).toNat

/-- Two's-complement image of an `i32` in a `u32` (`v as u32`). -/
def u32_of_i32 (v : Int) : Nat := (v % 4294967296).toNat

/-- `u16_with_order`: `BA` swaps the two bytes, anything else is a no-op
(identical function in `block.rs` and `downlink.rs`). -/
def u16_with_order (v : Nat) (order : Option ByteOrder) : Nat :=
  match order with
  | some .BA => (v % 256) * 256 + v / 256
  | _ => v

/-- `u32_with_order`: word composition of the first two data words; `CDAB`
takes `w1:w0`, anything else `w0:w1`; missing words default to 0. -/
def u32_with_order (data : List Nat) (order : Option ByteOrder) : Nat :=
  let w0 := data.getD 0 0
  let w1 := data.getD 1 0
  match order with
  | some .CDAB => w1 * 65536 + w0
  | _ => w0 * 65536 + w1

/-- `apply_scale_offset`: the affine transform `raw * scale + offset`. -/
def apply_scale_offset (raw : ℚ) (cfg : ModbusConfig) : ℚ :=
  raw * cfg.scale + cfg.offset

/-- `to_val_numeric`: narrow an affine result to `U32`/`I32` when its
fractional part is below `1e-6` in absolute value, else keep it as `F32`. -/
def to_val_numeric (v : ℚ) : Val :=
  if |rustFract v| < 1 / 1000000 then
    if 0 ≤ v then Val.U32 (rustAsU32 v) else Val.I32 (rustAsI32 v)
  else Val.F32 v

/-- `decode_register_value` of `block.rs`. -/
def decode_register_value (cfg : ModbusConfig) (data : List Nat) : Val :=
  match cfg.data_type with
  | .Bool => Val.U8 (if data.getD 0 0 ≠ 0 then 1 else 0)
  | .U16 =>
    let raw := data.getD 0 0
    to_val_numeric (apply_scale_offset (u16_with_order raw cfg.byte_order) cfg)
  | .I16 =>
    let raw := data.getD 0 0
    to_val_numeric
      (apply_scale_offset (i16_of_u16 (u16_with_order raw cfg.byte_order)) cfg)
  | .U32 =>
    to_val_numeric (apply_scale_offset (u32_with_order data cfg.byte_order) cfg)
  | .I32 =>
    to_val_numeric
      (apply_scale_offset (i32_of_u32 (u32_with_order data cfg.byte_order)) cfg)

/-! ## Reply parsing (`Blocks::parse`) -/

/-- One bus reply per block. -/
inductive BlockRead where
  | Coils (data : List Bool)
  | DiscreteInputs (data : List Bool)
  | HoldingRegisters (data : List Nat)
  | InputRegisters (data : List Nat)
deriving DecidableEq, Repr

/-- The bit-class region loop of `Blocks::parse`: out-of-range offsets are
skipped (`continue`), in-range ones push `U8(0|1)`. -/
def parseBitRegions (regions : List Region) (data : List Bool) (out : List (String × Val)) :
    List (String × Val) :=
  regions.foldl (fun out region =>
    if data.length ≤ region.offset then out
    else out ++ [(region.cfg.name, Val.U8 (if data.getD region.offset false then 1 else 0))])
    out

/-- The word-class region loop of `Blocks::parse`: a region whose
`offset + width` exceeds the data length is skipped, otherwise its slice is
decoded. -/
def parseRegRegions (regions : List Region) (data : List Nat) (out : List (String × Val)) :
    List (String × Val) :=
  regions.foldl (fun out region =>
    if data.length < region.offset + region.width then out
    else out ++
      [(region.cfg.name,
        decode_register_value region.cfg ((data.drop region.offset).take region.width))])
    out

/-- `Blocks::parse`: walk blocks zipped with their reads; mismatched
class/read pairs contribute nothing. -/
def Blocks.parse (blocks : List Block) (reads : List BlockRead) : List (String × Val) :=
  (blocks.zip reads).foldl (fun out br =>
    match br.1.register_type, br.2 with
    | .Coils, .Coils data => parseBitRegions br.1.regions data out
    | .DiscreteInputs, .DiscreteInputs data => parseBitRegions br.1.regions data out
    | .HoldingRegisters, .HoldingRegisters data => parseRegRegions br.1.regions data out
    | .InputRegisters, .InputRegisters data => parseRegRegions br.1.regions data out
    | _, _ => out) []

/-! ## Runner batch decoding (`runner.rs`) -/

/-- `ModbusRunner::apply_u16_byte_order` (byte swap on `BA`). -/
def apply_u16_byte_order (v : Nat) (order : Option ByteOrder) : Nat :=
  match order with
  | some .BA => (v % 256) * 256 + v / 256
  | _ => v

/-- `ModbusRunner::apply_u32_byte_order` (byte permutation of the two words). -/
def apply_u32_byte_order (r0 r1 : Nat) (order : Option ByteOrder) : Nat :=
  match order with
  | some .CDAB => r1 * 65536 + r0
  | some .BA => ((r0 % 256) * 256 + r0 / 256) * 65536 + ((r1 % 256) * 256 + r1 / 256)
  | _ => r0 * 65536 + r1

/-- `ModbusRunner::apply_scale_u16`: keep the raw `U16` when
`scale == 1 && offset == 0`, otherwise emit `F32(v * scale + offset)`. -/
def apply_scale_u16 (v : Nat) (scale offset : ℚ) : Val :=
  if scale = 1 ∧ offset = 0 then Val.U16 v else Val.F32 ((v : ℚ) * scale + offset)

/-- `ModbusRunner::apply_scale_i16`. -/
def apply_scale_i16 (v : Int) (scale offset : ℚ) : Val :=
  if scale = 1 ∧ offset = 0 then Val.I16 v else Val.F32 ((v : ℚ) * scale + offset)

/-- `ModbusRunner::apply_scale_u32`. -/
def apply_scale_u32 (v : Nat) (scale offset : ℚ) : Val :=
  if scale = 1 ∧ offset = 0 then Val.U32 v else Val.F32 ((v : ℚ) * scale + offset)

/-- `ModbusRunner::apply_scale_i32`. -/
def apply_scale_i32 (v : Int) (scale offset : ℚ) : Val :=
  if scale = 1 ∧ offset = 0 then Val.I32 v else Val.F32 ((v : ℚ) * scale + offset)

/-- `ModbusRunner::build_entry_from_regs`. -/
def build_entry_from_regs (cfg : ModbusConfig) (vals : List Nat) : Option Entry :=
  match cfg.data_type with
  | .Bool =>
    some { key := cfg.name, value := Val.U8 (if vals.getD 0 0 ≠ 0 then 1 else 0) }
  | .U16 =>
    match vals.head? with
    | none => none
    | some v =>
      some { key := cfg.name
             value := apply_scale_u16 (apply_u16_byte_order v cfg.byte_order)
               cfg.scale cfg.offset }
  | .I16 =>
    match vals.head? with
    | none => none
    | some v =>
      some { key := cfg.name
             value := apply_scale_i16 (i16_of_u16 (apply_u16_byte_order v cfg.byte_order))
               cfg.scale cfg.offset }
  | .U32 =>
    if vals.length < 2 then none
    else
      some { key := cfg.name
             value := apply_scale_u32
               (apply_u32_byte_order (vals.getD 0 0) (vals.getD 1 0) cfg.byte_order)
               cfg.scale cfg.offset }
  | .I32 =>
    if vals.length < 2 then none
    else
      some { key := cfg.name
             value := apply_scale_i32
               (i32_of_u32 (apply_u32_byte_order (vals.getD 0 0) (vals.getD 1 0)
                 cfg.byte_order))
               cfg.scale cfg.offset }

/-- `ModbusRunner::entry_from_reg_batch` (modelled for `start ≤ address`,
the only situation the runner reaches: the batch starts at its first, lowest
point). -/
def entry_from_reg_batch (cfg : ModbusConfig) (start : Nat) (vals : List Nat) :
    Option Entry :=
  let offset := cfg.register_address - start
  if vals.length < offset + cfg.quantity then none
  else build_entry_from_regs cfg ((vals.drop offset).take cfg.quantity)

/-! ## Runner batch planning (`runner.rs::build_batches`, `batch.rs`) -/

/-- `batch.rs::range_end`: reject a zero quantity, else the exclusive end
(`usize` arithmetic; `checked_add` cannot overflow for catalog inputs). -/
def range_end (start qty : Nat) : Option Nat :=
  if qty = 0 then none else some (start + qty)

/-- `ModbusRunner::max_batch_for` (note: 125, not 120, for word classes). -/
def max_batch_for : RegisterType → Nat
  | .Coils | .DiscreteInputs => 2000
  | .HoldingRegisters | .InputRegisters => 125

/-- `batch.rs::register_type_key` (sort key of `read_all`). -/
def register_type_key : RegisterType → Nat
  | .Coils => 0
  | .DiscreteInputs => 1
  | .HoldingRegisters => 2
  | .InputRegisters => 3

/-- A read batch of the runner (`ReadBatch`). -/
structure ReadBatch where
  register_type : RegisterType
  start : Nat
  endAddr : Nat
  configs : List ModbusConfig
deriving DecidableEq, Repr

/-- Head processing of `build_batches`' outer loop: skip oversized or
zero-quantity points, else open a batch at the point. -/
def tryStartBatch (cfg : ModbusConfig) : Option ReadBatch :=
  if max_batch_for cfg.register_type < cfg.quantity then none
  else
    match range_end cfg.register_address cfg.quantity with
    | none => none
    | some e =>
      some { register_type := cfg.register_type
             start := cfg.register_address
             endAddr := e
             configs := [cfg] }

/-- One step of `build_batches`: either extend the open batch, skip the point,
or close the batch and restart at the point — mirroring the inner `while` with
its `break`/`continue` arms. -/
def batchStep (st : List ReadBatch × Option ReadBatch) (cfg : ModbusConfig) :
    List ReadBatch × Option ReadBatch :=
  match st.2 with
  | none => (st.1, tryStartBatch cfg)
  | some cur =>
    if cfg.register_type ≠ cur.register_type then
      (st.1 ++ [cur], tryStartBatch cfg)
    else if cur.endAddr < cfg.register_address then
      (st.1 ++ [cur], tryStartBatch cfg)
    else if max_batch_for cfg.register_type < cfg.quantity then
      (st.1, some cur)
    else
      match range_end cfg.register_address cfg.quantity with
      | none => (st.1, some cur)
      | some cfg_end =>
        if max_batch_for cfg.register_type < cfg_end - cur.start then
          (st.1 ++ [cur], tryStartBatch cfg)
        else
          (st.1, some { cur with
            endAddr := max cur.endAddr cfg_end
            configs := cur.configs ++ [cfg] })

/-- `ModbusRunner::build_batches` over an (already sorted) config list. -/
def build_batches (cfgs : List ModbusConfig) : List ReadBatch :=
  let st := cfgs.foldl batchStep ([], none)
  match st.2 with
  | none => st.1
  | some cur => st.1 ++ [cur]

/-! ## Write planner (`dev/modbus_dev/downlink.rs`) -/

/-- `f32::EPSILON` (2⁻²³), the coil truthiness threshold for `F32`. -/
def f32Epsilon : ℚ := 1 / 8388608

/-- `val_to_bool`: any nonzero numeric is true; `F32` is true iff
`|v| > f32::EPSILON`. -/
def val_to_bool (v : Val) : Option Bool :=
  match v with
  | .U8 v => some (v ≠ 0)
  | .I8 v => some (v ≠ 0)
  | .I16 v => some (v ≠ 0)
  | .I32 v => some (v ≠ 0)
  | .U16 v => some (v ≠ 0)
  | .U32 v => some (v ≠ 0)
  | .F32 v => some (f32Epsilon < |v|)

/-- `val_to_f64`: numeric widening of every variant. -/
def val_to_f64 (v : Val) : Option ℚ :=
  match v with
  | .U8 v => some v
  | .I8 v => some v
  | .I16 v => some v
  | .I32 v => some v
  | .U16 v => some v
  | .U32 v => some v
  | .F32 v => some v

/-- `scale_to_raw`: refuse when `|scale| < 1e-12`, else `(v - offset) / scale`. -/
def scale_to_raw (cfg : ModbusConfig) (value : Val) : Option ℚ :=
  match val_to_f64 value with
  | none => none
  | some v =>
    if |cfg.scale| < 1 / 1000000000000 then none
    else some ((v - cfg.offset) / cfg.scale)

/-- `to_u16`: round, then range-check against `u16`. -/
def to_u16 (v : ℚ) : Option Nat :=
  let r := rustRound v
  if 0 ≤ r ∧ r ≤ 65535 then some r.toNat else none

/-- `to_i16`: round, then range-check against `i16`. -/
def to_i16 (v : ℚ) : Option Int :=
  let r := rustRound v
  if -32768 ≤ r ∧ r ≤ 32767 then some r else none

/-- `to_u32`: round, then range-check against `u32`. -/
def to_u32 (v : ℚ) : Option Nat :=
  let r := rustRound v
  if 0 ≤ r ∧ r ≤ 4294967295 then some r.toNat else none

/-- `to_i32`: round, then range-check against `i32`. -/
def to_i32 (v : ℚ) : Option Int :=
  let r := rustRound v
  if -2147483648 ≤ r ∧ r ≤ 2147483647 then some r else none

/-- `encode_u32`: split into two words, `CDAB` swapping the word order. -/
def encode_u32 (raw : Nat) (order : Option ByteOrder) : List Nat :=
  let w0 := raw / 65536
  let w1 := raw % 65536
  match order with
  | some .CDAB => [w1, w0]
  | _ => [w0, w1]

/-- `encode_registers`: value of one outbound entry to 1–2 register words. -/
def encode_registers (cfg : ModbusConfig) (value : Val) : Option (List Nat) :=
  match cfg.data_type with
  | .Bool =>
    (val_to_bool value).map (fun v => [if v then 1 else 0])
  | .U16 => do
    let raw ← scale_to_raw cfg value
    let v ← to_u16 raw
    pure [u16_with_order v cfg.byte_order]
  | .I16 => do
    let raw ← scale_to_raw cfg value
    let v ← to_i16 raw
    pure [u16_with_order (u16_of_i16 v) cfg.byte_order]
  | .U32 => do
    let raw ← scale_to_raw cfg value
    let v ← to_u32 raw
    pure (encode_u32 v cfg.byte_order)
  | .I32 => do
    let raw ← scale_to_raw cfg value
    let v ← to_i32 raw
    pure (encode_u32 (u32_of_i32 v) cfg.byte_order)

/-- Ordered-map insertion (`BTreeMap::insert`): keeps keys sorted, replaces
an existing key's value. -/
def sortedInsert {α : Type} (m : List (Nat × α)) (k : Nat) (v : α) : List (Nat × α) :=
  match m with
  | [] => [(k, v)]
  | (k0, v0) :: rest =>
    if k < k0 then (k, v) :: (k0, v0) :: rest
    else if k = k0 then (k, v) :: rest
    else (k0, v0) :: sortedInsert rest k v

/-- Place each produced word at `register_address.saturating_add(idx)`. -/
def insertWords (m : List (Nat × Nat)) (base idx : Nat) : List Nat → List (Nat × Nat)
  | [] => m
  | v :: rest => insertWords (sortedInsert m (satAdd16 base idx) v) base (idx + 1) rest

/-- Name lookup in the name → catalog-row map. -/
def lookupCfg : List (String × ModbusConfig) → String → Option ModbusConfig
  | [], _ => none
  | (n, cfg) :: rest, key => if n = key then some cfg else lookupCfg rest key

/-- `build_cfg_map`: fold the catalog into a name-keyed map, later rows
overwriting earlier ones with the same name (`HashMap::insert`). -/
def storeCfg : List (String × ModbusConfig) → String → ModbusConfig →
    List (String × ModbusConfig)
  | [], n, cfg => [(n, cfg)]
  | (n0, c0) :: rest, n, cfg =>
    if n0 = n then (n, cfg) :: rest else (n0, c0) :: storeCfg rest n cfg

/-- `build_cfg_map` itself. -/
def build_cfg_map (configs : List ModbusConfig) : List (String × ModbusConfig) :=
  configs.foldl (fun m cfg => storeCfg m cfg.name cfg) []

/-- Per-entry step of `WritePlan::build`: unknown names and read-only classes
are skipped; coil writes insert a bool; holding writes insert the encoded
words; a refused encoding contributes nothing. -/
def buildStep (cfg_map : List (String × ModbusConfig))
    (st : List (Nat × Bool) × List (Nat × Nat)) (entry : Entry) :
    List (Nat × Bool) × List (Nat × Nat) :=
  match lookupCfg cfg_map entry.key with
  | none => st
  | some cfg =>
    match cfg.register_type with
    | .Coils =>
      match val_to_bool entry.value with
      | none => st
      | some v => (sortedInsert st.1 cfg.register_address v, st.2)
    | .HoldingRegisters =>
      match encode_registers cfg entry.value with
      | none => st
      | some values => (st.1, insertWords st.2 cfg.register_address 0 values)
    | .DiscreteInputs | .InputRegisters => st

/-- The state of the run-merging loop of `merge_bool_blocks` /
`merge_u16_blocks`. -/
structure MergeState (α : Type) where
  out : List (Nat × List α)
  cur_start : Option Nat
  cur_vals : List α
  last_addr : Option Nat

/-- One step of the run-merging loop (both `merge_*_blocks` functions have
this exact shape). -/
def mergeStep {α : Type} (st : MergeState α) (p : Nat × α) : MergeState α :=
  match st.cur_start, st.last_addr with
  | none, _ =>
    { out := st.out, cur_start := some p.1
      cur_vals := st.cur_vals ++ [p.2], last_addr := some p.1 }
  | some start, some last =>
    if p.1 = satAdd16 last 1 then
      { out := st.out, cur_start := some start
        cur_vals := st.cur_vals ++ [p.2], last_addr := some p.1 }
    else
      { out := st.out ++ [(start, st.cur_vals)], cur_start := some p.1
        cur_vals := [p.2], last_addr := some p.1 }
  | some start, none =>
    { out := st.out ++ [(start, st.cur_vals)], cur_start := some p.1
      cur_vals := [p.2], last_addr := some p.1 }

/-- Close runs of consecutive addresses into `(start, values)` blocks. -/
def mergeBlocks {α : Type} (m : List (Nat × α)) : List (Nat × List α) :=
  let st := m.foldl mergeStep { out := [], cur_start := none, cur_vals := [], last_addr := none }
  match st.cur_start with
  | some start => st.out ++ [(start, st.cur_vals)]
  | none => st.out

/-- `merge_bool_blocks`. -/
def merge_bool_blocks (m : List (Nat × Bool)) : List (Nat × List Bool) := mergeBlocks m

/-- `merge_u16_blocks`. -/
def merge_u16_blocks (m : List (Nat × Nat)) : List (Nat × List Nat) := mergeBlocks m

/-- The write plan (`WritePlan`). -/
structure WritePlan where
  coils : List (Nat × List Bool)
  holding : List (Nat × List Nat)
deriving DecidableEq, Repr

/-- `WritePlan::build`. -/
def WritePlan.build (entries : List Entry) (cfg_map : List (String × ModbusConfig)) :
    WritePlan :=
  let st := entries.foldl (buildStep cfg_map) ([], [])
  { coils := merge_bool_blocks st.1, holding := merge_u16_blocks st.2 }

/-! ## Runner control flow (`runner.rs::run` / `run_connected`)

The runner's interaction with its environment is modelled as a script of
events and a trace of effects.  The only effectful calls the runner makes are
`store_state` and `global_center().ingest`; `RunnerEffect.busWrite` stands for
an `apply_write_plan` call, which the source never performs (the select in
`run_connected` has exactly two arms: the stop signal and the poll tick). -/

/-- `ModbusDevError` of `dev/modbus_dev/error.rs` (payloads elided). -/
inductive ModbusDevError where
  | IpParseError | IoError | Elapsed | SerialError | ModbusError
  | ModbusException (code : Nat)
  | BlocksError (err : BuildBlocksError)
deriving DecidableEq, Repr

/-- Decidable equality for `Except` payloads of the event scripts. -/
instance {ε α : Type} [DecidableEq ε] [DecidableEq α] : DecidableEq (Except ε α) :=
  fun a b =>
    match a, b with
    | .ok x, .ok y =>
      match decEq x y with
      | isTrue h => isTrue (congrArg Except.ok h)
      | isFalse h => isFalse (fun hh => h (Except.ok.inj hh))
    | .error x, .error y =>
      match decEq x y with
      | isTrue h => isTrue (congrArg Except.error h)
      | isFalse h => isFalse (fun hh => h (Except.error.inj hh))
    | .ok _, .error _ => isFalse (fun hh => Except.noConfusion hh)
    | .error _, .ok _ => isFalse (fun hh => Except.noConfusion hh)

/-- An event observed inside `run_connected`'s select loop: a stop-signal
change, or a tick whose `read_all` returned the given result. -/
inductive ConnEvent where
  | stopChanged (stop : Bool)
  | tick (res : Except ModbusDevError (List Entry))
deriving DecidableEq, Repr

/-- An observable effect of the runner. -/
inductive RunnerEffect where
  | storeState (s : LifecycleState)
  | ingest (entries : List Entry)
  | busWrite (coils : List (Nat × List Bool)) (holding : List (Nat × List Nat))
deriving DecidableEq, Repr

/-- One iteration of the outer reconnect loop: the stop flag seen at the top,
the connect result, the events consumed while connected, the stop flag seen
after, and whether the stop signal fired during the backoff sleep. -/
structure OuterStep where
  stopBefore : Bool
  connect : Except ModbusDevError Unit
  connEvents : List ConnEvent
  stopAfter : Bool
  stopDuringSleep : Bool
deriving DecidableEq, Repr

/-- The loop body of `run_connected` after the `Running` store: consume events
until a stop change with `true`, a read error, or the script's end. -/
def runConnLoop : List ConnEvent → List RunnerEffect
  | [] => []
  | .stopChanged b :: rest => if b then [] else runConnLoop rest
  | .tick res :: rest =>
    match res with
    | .ok entries =>
      if entries.isEmpty then runConnLoop rest
      else .ingest entries :: runConnLoop rest
    | .error _ => []

/-- `ModbusRunner::run_connected`: store `Running`, then the select loop. -/
def run_connected (events : List ConnEvent) : List RunnerEffect :=
  .storeState .Running :: runConnLoop events

/-- `ModbusRunner::run`: the outer reconnect loop with its stop checks,
connect attempt, state stores and backoff sleep. -/
def runner_run : List OuterStep → List RunnerEffect
  | [] => []
  | step :: rest =>
    if step.stopBefore then [.storeState .Stopped]
    else
      [RunnerEffect.storeState .Connecting] ++
      (match step.connect with
       | .ok _ => [RunnerEffect.storeState .Connected] ++ run_connected step.connEvents
       | .error _ => [RunnerEffect.storeState .Failed]) ++
      (if step.stopAfter then [RunnerEffect.storeState .Stopped]
       else if step.stopDuringSleep then [RunnerEffect.storeState .Stopped]
       else runner_run rest)

/-! ## Concrete inputs used by counterexamples and witnesses -/

/-- A 2-word point whose second word lies past `0xFFFF` (claim C9). -/
def c9Point : ModbusConfig :=
  { id := 1, name := "p", data_type := ModbusDataType.U32, unit := none,
    remarks := none, register_address := 65535,
    register_type := RegisterType.HoldingRegisters, quantity := 2,
    byte_order := none, scale := 1, offset := 0 }

/-- A 2-word point at `0xFFFE` whose range reaches `0x10000` (claim C3). -/
def c3PointA : ModbusConfig :=
  { id := 1, name := "a", data_type := ModbusDataType.U32, unit := none,
    remarks := none, register_address := 65534,
    register_type := RegisterType.HoldingRegisters, quantity := 2,
    byte_order := none, scale := 1, offset := 0 }

/-- A 1-word point at `0xFFFF`, inside `c3PointA`'s range (claim C3). -/
def c3PointB : ModbusConfig :=
  { id := 2, name := "b", data_type := ModbusDataType.U16, unit := none,
    remarks := none, register_address := 65535,
    register_type := RegisterType.HoldingRegisters, quantity := 1,
    byte_order := none, scale := 1, offset := 0 }

/-- A scalar point with a tiny scale (claim C6's counterexample). -/
def c6Cfg : ModbusConfig :=
  { id := 1, name := "c", data_type := ModbusDataType.U16, unit := none,
    remarks := none, register_address := 0,
    register_type := RegisterType.HoldingRegisters, quantity := 1,
    byte_order := none, scale := 1 / 10000000, offset := 0 }

/-- The written value of C6's counterexample: `3e-7`, exactly `3 · scale`. -/
def c6Value : Val := Val.F32 (3 / 10000000)

/-- A scalar point with `scale = 0.5`, `offset = 1` (claim C6's witness). -/
def c6wCfg : ModbusConfig :=
  { id := 1, name := "w", data_type := ModbusDataType.U16, unit := none,
    remarks := none, register_address := 0,
    register_type := RegisterType.HoldingRegisters, quantity := 1,
    byte_order := none, scale := 1 / 2, offset := 1 }

/-- A Bool-typed holding register with `scale = 0` (claim C8's counterexample). -/
def c8BoolCfg : ModbusConfig :=
  { id := 1, name := "b", data_type := ModbusDataType.Bool, unit := none,
    remarks := none, register_address := 5,
    register_type := RegisterType.HoldingRegisters, quantity := 1,
    byte_order := none, scale := 0, offset := 0 }

/-- An outbound write to `c8BoolCfg`. -/
def c8BoolEntry : Entry := { key := "b", value := Val.U8 1 }

/-- A numeric holding register with `scale = 0` (claim C8's witness). -/
def c8NumCfg : ModbusConfig :=
  { id := 2, name := "n", data_type := ModbusDataType.U16, unit := none,
    remarks := none, register_address := 5,
    register_type := RegisterType.HoldingRegisters, quantity := 1,
    byte_order := none, scale := 0, offset := 0 }

/-- An outbound write to `c8NumCfg`. -/
def c8NumEntry : Entry := { key := "n", value := Val.U16 9 }

/-- A sample polled entry (claims C4/C5). -/
def t1Entry : Entry := { key := "T1", value := Val.U16 7 }

/-- One successful outer iteration: connect, poll once, then stop. -/
def demoStep : OuterStep :=
  { stopBefore := false
    connect := Except.ok ()
    connEvents := [ConnEvent.tick (Except.ok [t1Entry])]
    stopAfter := true
    stopDuringSleep := false }

/-- The key of the synthetic connectivity point the spec promises. -/
def commStatusKey : String := "COMM_STATUS"

/-- The block C9's boundary point is planned into (release semantics). -/
def c9Block : Block :=
  { register_type := RegisterType.HoldingRegisters, start := 65535, len := 2,
    regions := [{ cfg := c9Point, offset := 0, width := 2 }] }

/-- The batch C9's boundary point is planned into by the runner. -/
def c9Batch : ReadBatch :=
  { register_type := RegisterType.HoldingRegisters, start := 65535,
    endAddr := 65537, configs := [c9Point] }

/-- Spec seed scenario 3: three contiguous holding points (C2's witness). -/
def scen3x : ModbusConfig :=
  { id := 1, name := "x", data_type := ModbusDataType.U16, unit := none,
    remarks := none, register_address := 10,
    register_type := RegisterType.HoldingRegisters, quantity := 1,
    byte_order := none, scale := 1, offset := 0 }

/-- Second point of scenario 3. -/
def scen3y : ModbusConfig :=
  { id := 2, name := "y", data_type := ModbusDataType.U16, unit := none,
    remarks := none, register_address := 11,
    register_type := RegisterType.HoldingRegisters, quantity := 1,
    byte_order := none, scale := 1, offset := 0 }

/-- Third point of scenario 3 (2 words wide). -/
def scen3z : ModbusConfig :=
  { id := 3, name := "z", data_type := ModbusDataType.U32, unit := none,
    remarks := none, register_address := 12,
    register_type := RegisterType.HoldingRegisters, quantity := 2,
    byte_order := none, scale := 1, offset := 0 }

/-- Spec seed scenario 5: overlapping holding points (C3's witness). -/
def scen5a : ModbusConfig :=
  { id := 1, name := "a", data_type := ModbusDataType.U32, unit := none,
    remarks := none, register_address := 10,
    register_type := RegisterType.HoldingRegisters, quantity := 2,
    byte_order := none, scale := 1, offset := 0 }

/-- Second point of scenario 5, starting inside the first. -/
def scen5b : ModbusConfig :=
  { id := 2, name := "b", data_type := ModbusDataType.U16, unit := none,
    remarks := none, register_address := 11,
    register_type := RegisterType.HoldingRegisters, quantity := 1,
    byte_order := none, scale := 1, offset := 0 }

/-- A region in bounds of a 1-word reply (claim C10's witness). -/
def c10reg1 : Region := { cfg := scen3x, offset := 0, width := 1 }

/-- A region out of bounds of a 1-word reply (claim C10's witness). -/
def c10reg2 : Region := { cfg := scen3z, offset := 1, width := 2 }

/-! ## Specification-side predicates for the block-planner claims (C2, C3) -/

/-- Two catalog points occupy disjoint address intervals
(`[addr, addr + width)`, width derived from the data type as in `block.rs`). -/
def IntervalDisjoint (p q : ModbusConfig) : Prop :=
  p.register_address + p.data_type.quantity ≤ q.register_address ∨
  q.register_address + q.data_type.quantity ≤ p.register_address

instance (p q : ModbusConfig) : Decidable (IntervalDisjoint p q) := by
  unfold IntervalDisjoint; infer_instance

/-- A catalog has no overlapping addresses within a register class. -/
def NoClassOverlap (cats : List ModbusConfig) : Prop :=
  cats.Pairwise (fun p q => p.register_type = q.register_type → IntervalDisjoint p q)

instance (cats : List ModbusConfig) : Decidable (NoClassOverlap cats) := by
  unfold NoClassOverlap; infer_instance

/-- The point `q` sits at or after the end of `p` (address order staircase). -/
def Staircase (p q : ModbusConfig) : Prop :=
  p.register_address + p.data_type.quantity ≤ q.register_address

instance (p q : ModbusConfig) : Decidable (Staircase p q) := by
  unfold Staircase; infer_instance

/-- Consecutive staircase along a list: every point ends at or before the next
one starts. -/
def StairChain : List ModbusConfig → Prop
  | [] => True
  | [_] => True
  | p :: q :: rest =>
    p.register_address + p.data_type.quantity ≤ q.register_address ∧
      StairChain (q :: rest)

/-- A consecutive staircase whose first step starts at `e`. -/
def chainFrom (e : Nat) : List ModbusConfig → Prop
  | [] => True
  | p :: rest =>
    e ≤ p.register_address ∧
      chainFrom (p.register_address + p.data_type.quantity) rest

/-- The exclusive end after sweeping a contiguous run of points, starting
from end `e`. -/
def endAfter (e : Nat) : List ModbusConfig → Nat
  | [] => e
  | p :: rest => endAfter (p.register_address + p.data_type.quantity) rest

/-- The true (unwrapped) length of the open block: the sum of its region
widths. -/
def curLenTrue (cur : CurBlock) : Nat := (cur.regions.map Region.width).sum

/-- Width of the open block's first region (fixed once the block opens). -/
def curFW (cur : CurBlock) : Nat := (cur.regions.map Region.width).headD 0

/-- Block `b2` could be merged into `b1` under the sweep's
contiguity-and-length rules: same class, `b2` starts exactly at `b1`'s
exclusive end, and appending `b2`'s first point would not exceed the class
limit. -/
def Mergeable (b1 b2 : Block) : Prop :=
  b1.register_type = b2.register_type ∧
  b2.start = b1.start + b1.len ∧
  b2.regions ≠ [] ∧
  b1.len + (b2.regions.map Region.width).headD 0 ≤ maxLenFor b1.register_type

instance (b1 b2 : Block) : Decidable (Mergeable b1 b2) := by
  unfold Mergeable; infer_instance

/-- The catalog points carried by a block list, one per region, in order. -/
def blocksCfgs (bs : List Block) : List ModbusConfig :=
  (bs.flatMap Block.regions).map Region.cfg

/-- Invariant of the sweep state `(done, cur)` for register class `rt`:
the open block is well-formed (its stored `end_excl` is the wrapped image of
its true end, its true length is within the class limit), each closed block
is well-formed, ends at or before the open block's start, and was separated
from what follows by a gap or a length break, and no two closed blocks are
mergeable. -/
def SweepInv (rt : RegisterType) (done : List Block) (cur : CurBlock) : Prop :=
  cur.start < 65536 ∧
  1 ≤ curLenTrue cur ∧
  curLenTrue cur ≤ maxLenFor rt ∧
  cur.regions ≠ [] ∧
  cur.endExcl = (cur.start + curLenTrue cur) % 65536 ∧
  (∀ b ∈ done, 1 ≤ b.len ∧ b.len ≤ maxLenFor rt ∧ b.regions ≠ [] ∧
    b.register_type = rt ∧ b.start + b.len ≤ cur.start ∧
    (b.start + b.len = cur.start → maxLenFor rt < b.len + curFW cur)) ∧
  done.Pairwise (fun b1 b2 => ¬ Mergeable b1 b2 ∧ ¬ Mergeable b2 b1)

/-! Supporting lemmas for claim C1. -/

theorem lookupVal_insertEntry_self (m : List Entry) (p : Entry) :
    lookupVal (insertEntry m p) p.key = some p.value := by
  induction m with
  | nil => simp [insertEntry, lookupVal]
  | cons e rest ih =>
    by_cases h : e.key = p.key
    · simp [insertEntry, h, lookupVal]
    · simp [insertEntry, h, lookupVal, ih]

theorem lookupVal_insertEntry_other (m : List Entry) (p : Entry) (k : String)
    (hk : ¬ (k = p.key)) : lookupVal (insertEntry m p) k = lookupVal m k := by
  have hk' : ¬ (p.key = k) := fun h => hk h.symm
  induction m with
  | nil =>
    simp [insertEntry, lookupVal, hk']
  | cons e rest ih =>
    by_cases h : e.key = p.key
    · rw [insertEntry, if_pos h]
      simp [lookupVal, h, hk']
    · rw [insertEntry, if_neg h]
      by_cases h2 : e.key = k
      · simp [lookupVal, h2]
      · simp [lookupVal, h2, ih]

theorem lookupVal_ingestOne_self (m : List Entry) (p : Entry) :
    lookupVal (ingestOne m p) p.key = some p.value := by
  unfold ingestOne
  cases hl : lookupVal m p.key with
  | none => simp [lookupVal_insertEntry_self]
  | some oldv =>
    by_cases h : oldv = p.value
    · simp [h, hl]
    · simp [h, lookupVal_insertEntry_self]

theorem lookupVal_ingestOne_other (m : List Entry) (p : Entry) (k : String)
    (hk : ¬ (k = p.key)) : lookupVal (ingestOne m p) k = lookupVal m k := by
  unfold ingestOne
  cases hl : lookupVal m p.key with
  | none => simp [lookupVal_insertEntry_other m p k hk]
  | some oldv =>
    by_cases h : oldv = p.value
    · simp [h]
    · simp [h, lookupVal_insertEntry_other m p k hk]

theorem lastVal_cons (e : Entry) (l : List Entry) :
    lastVal (e :: l) = (lastVal l).or (some e.value) := by
  cases l with
  | nil => simp [lastVal, Option.or]
  | cons e2 rest =>
    have h : ∀ (a : Entry) (l' : List Entry), (lastVal (a :: l')).isSome = true := by
      intro a l'
      induction l' generalizing a with
      | nil => simp [lastVal]
      | cons b rest' ih => simpa [lastVal] using ih b
    rcases Option.isSome_iff_exists.mp (h e2 rest) with ⟨v, hv⟩
    simp [lastVal, hv, Option.or]

theorem lookupVal_ingestEntries (es : List Entry) (m : List Entry) (k : String) :
    lookupVal (ingestEntries m es) k =
      (lastVal (es.filter (fun e => e.key = k))).or (lookupVal m k) := by
  induction es generalizing m with
  | nil => simp [ingestEntries, lastVal, Option.or]
  | cons e rest ih =>
    have step : ingestEntries m (e :: rest) = ingestEntries (ingestOne m e) rest := rfl
    rw [step, ih]
    by_cases hk : e.key = k
    · have hfil : (e :: rest).filter (fun x => x.key = k) =
          e :: rest.filter (fun x => x.key = k) := by
        simp [List.filter_cons, hk]
      have h1 : lookupVal (ingestOne m e) k = some e.value := by
        rw [← hk]; exact lookupVal_ingestOne_self m e
      rw [hfil, lastVal_cons, h1]
      cases lastVal (rest.filter (fun x => x.key = k)) <;> simp [Option.or]
    · have hfil : (e :: rest).filter (fun x => x.key = k) =
          rest.filter (fun x => x.key = k) := by
        simp [List.filter_cons, hk]
      have h1 : lookupVal (ingestOne m e) k = lookupVal m k :=
        lookupVal_ingestOne_other m e k (fun h => hk h.symm)
      rw [hfil, h1]

theorem lookupDev_storeDev_self (c : DataCenter) (dev : String) (m : List Entry) :
    DataCenter.lookupDev (DataCenter.storeDev c dev m) dev = some m := by
  induction c with
  | nil => simp [DataCenter.storeDev, DataCenter.lookupDev]
  | cons p rest ih =>
    rcases p with ⟨d, dm⟩
    by_cases h : d = dev
    · rw [DataCenter.storeDev, if_pos h, DataCenter.lookupDev, if_pos rfl]
    · rw [DataCenter.storeDev, if_neg h, DataCenter.lookupDev, if_neg h]
      exact ih

theorem storeDev_storeDev (c : DataCenter) (dev : String) (m1 m2 : List Entry) :
    DataCenter.storeDev (DataCenter.storeDev c dev m1) dev m2 =
      DataCenter.storeDev c dev m2 := by
  induction c with
  | nil => simp [DataCenter.storeDev]
  | cons p rest ih =>
    rcases p with ⟨d, dm⟩
    by_cases h : d = dev
    · rw [DataCenter.storeDev, if_pos h, DataCenter.storeDev, if_pos rfl,
        DataCenter.storeDev, if_pos h]
    · rw [DataCenter.storeDev, if_neg h, DataCenter.storeDev, if_neg h,
        DataCenter.storeDev, if_neg h, ih]

theorem storeDev_of_lookupDev (c : DataCenter) (dev : String) (m : List Entry)
    (h : DataCenter.lookupDev c dev = some m) :
    DataCenter.storeDev c dev m = c := by
  induction c with
  | nil => simp [DataCenter.lookupDev] at h
  | cons p rest ih =>
    rcases p with ⟨d, dm⟩
    by_cases hd : d = dev
    · subst hd
      rw [DataCenter.lookupDev, if_pos rfl] at h
      have hm : dm = m := by injection h
      rw [DataCenter.storeDev, if_pos rfl, hm]
    · rw [DataCenter.lookupDev, if_neg hd] at h
      rw [DataCenter.storeDev, if_neg hd, ih h]

theorem ingest_ingest (c : DataCenter) (dev : String) (l1 l2 : List Entry) :
    DataCenter.ingest (DataCenter.ingest c dev l1) dev l2 =
      DataCenter.ingest c dev (l1 ++ l2) := by
  unfold DataCenter.ingest
  rw [lookupDev_storeDev_self, storeDev_storeDev]
  simp [ingestEntries, Option.getD, List.foldl_append]

theorem ingestCalls_eq_flatten (css : List (List Entry)) (c : DataCenter) (dev : String) :
    ingestCalls c dev css =
      if css = [] then c else DataCenter.ingest c dev css.flatten := by
  induction css generalizing c with
  | nil => simp [ingestCalls]
  | cons es rest ih =>
    have step : ingestCalls c dev (es :: rest) =
        ingestCalls (DataCenter.ingest c dev es) dev rest := rfl
    rw [step, ih]
    by_cases h : rest = []
    · simp [h]
    · simp [h, ingest_ingest]

/-- Claim C1.  For every device and every sequence of `ingest` calls whose
payloads for a key `k` are `(k, v₁), …, (k, vₙ)`, a subsequent `read(dev, k)`
returns `vₙ`; moreover an ingest whose value structurally equals the stored
value leaves the per-device map — and hence what `read` and `snapshot` return —
completely unchanged (the store update is skipped). -/
theorem c1_read_returns_last_ingested :
    (∀ (c : DataCenter) (dev k : String) (css : List (List Entry)) (v : Val),
        lastVal (css.flatten.filter (fun e => e.key = k)) = some v →
        DataCenter.read (ingestCalls c dev css) dev k = some v) ∧
    (∀ (m : List Entry) (p : Entry),
        lookupVal m p.key = some p.value → ingestOne m p = m) ∧
    (∀ (c : DataCenter) (dev : String) (p : Entry),
        DataCenter.read c dev p.key = some p.value →
        DataCenter.ingest c dev [p] = c) := by
  refine ⟨?_, ?_, ?_⟩
  · intro c dev k css v hv
    have hne : css ≠ [] := by
      intro h
      rw [h] at hv
      simp [lastVal] at hv
    rw [ingestCalls_eq_flatten, if_neg hne]
    unfold DataCenter.ingest DataCenter.read
    rw [lookupDev_storeDev_self]
    simp only [Option.some_bind]
    rw [lookupVal_ingestEntries, hv]
    rfl
  · intro m p hstored
    simp [ingestOne, hstored]
  · intro c dev p hread
    unfold DataCenter.read at hread
    cases hl : DataCenter.lookupDev c dev with
    | none => rw [hl] at hread; simp at hread
    | some m =>
      rw [hl] at hread
      simp only [Option.some_bind] at hread
      have hskip : ingestOne m p = m := by
        simp [ingestOne, hread]
      unfold DataCenter.ingest
      rw [hl]
      simp only [Option.getD_some, ingestEntries, List.foldl_cons, List.foldl_nil, hskip]
      exact storeDev_of_lookupDev c dev m hl

/-- Witness for C1: the seed scenario of the spec — ingesting `{SOH, F32 100}`
twice into an empty center leaves a single entry and `read` returns it. -/
theorem c1_read_returns_last_ingested_witness :
    DataCenter.read (ingestCalls [] bcuId [[sohEntry], [sohEntry]]) bcuId sohKey =
      some (Val.F32 100) ∧
    ingestOne [sohEntry] sohEntry = [sohEntry] ∧
    DataCenter.ingest [(bcuId, [sohEntry])] bcuId [sohEntry] = [(bcuId, [sohEntry])] :=
  ⟨c1_read_returns_last_ingested.1 [] bcuId sohKey [[sohEntry], [sohEntry]]
      (Val.F32 100) (by decide),
   c1_read_returns_last_ingested.2.1 [sohEntry] sohEntry (by decide),
   c1_read_returns_last_ingested.2.2 [(bcuId, [sohEntry])] bcuId sohEntry (by decide)⟩

/-! ## Claim C7: the final value narrowing -/

/-- Counterexample for claim C7.  The claim states that *every* word-class
decode narrows `y = x * scale + offset` to `U32(y)` when `|fract(y)| < 1e-6`
and `y ≥ 0`.  The runner's live decode path (`apply_scale_u16`, used by
`build_entry_from_regs`) does not: at raw word 3 with `scale = 2`,
`offset = 0` it emits `F32 6`, although `fract 6 = 0` and `6 ≥ 0` would
demand `U32 6`. -/
theorem c7_counterexample :
    apply_scale_u16 3 2 0 = Val.F32 6 ∧
    rustFract 6 = 0 ∧ ((0 : ℚ) ≤ 6) ∧ Val.F32 6 ≠ Val.U32 6 := by
  refine ⟨?_, by norm_num [rustFract, ratTrunc], by norm_num, by simp⟩
  rw [apply_scale_u16, if_neg (by norm_num)]
  norm_num

/-- Claim C7, amended.  The stated narrowing rule describes the block-module
decoder (`to_val_numeric`, used by `decode_register_value`): `U32(y)` when
`|fract y| < 1e-6` and `y ≥ 0`, `I32(y)` when `|fract y| < 1e-6` and `y < 0`,
`F32(y)` otherwise.  The runner's batch decoder (`apply_scale_u16`,
`apply_scale_i16`, `apply_scale_u32`, `apply_scale_i32`, used by
`build_entry_from_regs`) instead returns the raw typed word (`U16`/`I16`/
`U32`/`I32`) when `scale = 1` and `offset = 0`, and `F32(y)` in every other
case. -/
theorem c7_narrowing_amended :
    (∀ y : ℚ,
      (|rustFract y| < 1 / 1000000 → 0 ≤ y → to_val_numeric y = Val.U32 (rustAsU32 y)) ∧
      (|rustFract y| < 1 / 1000000 → y < 0 → to_val_numeric y = Val.I32 (rustAsI32 y)) ∧
      (¬ |rustFract y| < 1 / 1000000 → to_val_numeric y = Val.F32 y)) ∧
    (∀ (v : Nat) (scale offset : ℚ), ¬ (scale = 1 ∧ offset = 0) →
      apply_scale_u16 v scale offset = Val.F32 ((v : ℚ) * scale + offset)) ∧
    (∀ v : Nat, apply_scale_u16 v 1 0 = Val.U16 v) ∧
    (∀ (v : Int) (scale offset : ℚ), ¬ (scale = 1 ∧ offset = 0) →
      apply_scale_i16 v scale offset = Val.F32 ((v : ℚ) * scale + offset)) ∧
    (∀ v : Int, apply_scale_i16 v 1 0 = Val.I16 v) ∧
    (∀ (v : Nat) (scale offset : ℚ), ¬ (scale = 1 ∧ offset = 0) →
      apply_scale_u32 v scale offset = Val.F32 ((v : ℚ) * scale + offset)) ∧
    (∀ v : Nat, apply_scale_u32 v 1 0 = Val.U32 v) ∧
    (∀ (v : Int) (scale offset : ℚ), ¬ (scale = 1 ∧ offset = 0) →
      apply_scale_i32 v scale offset = Val.F32 ((v : ℚ) * scale + offset)) ∧
    (∀ v : Int, apply_scale_i32 v 1 0 = Val.I32 v) := by
  refine ⟨?_, ?_, ?_, ?_, ?_, ?_, ?_, ?_, ?_⟩
  · intro y
    refine ⟨?_, ?_, ?_⟩
    · intro hf hy
      rw [to_val_numeric, if_pos hf, if_pos hy]
    · intro hf hy
      rw [to_val_numeric, if_pos hf, if_neg (not_le.mpr hy)]
    · intro hf
      rw [to_val_numeric, if_neg hf]
  · intro v scale offset h
    rw [apply_scale_u16, if_neg h]
  · intro v
    rw [apply_scale_u16, if_pos ⟨rfl, rfl⟩]
  · intro v scale offset h
    rw [apply_scale_i16, if_neg h]
  · intro v
    rw [apply_scale_i16, if_pos ⟨rfl, rfl⟩]
  · intro v scale offset h
    rw [apply_scale_u32, if_neg h]
  · intro v
    rw [apply_scale_u32, if_pos ⟨rfl, rfl⟩]
  · intro v scale offset h
    rw [apply_scale_i32, if_neg h]
  · intro v
    rw [apply_scale_i32, if_pos ⟨rfl, rfl⟩]

/-- Witness for C7's amended theorem at concrete inputs, covering all four
runner decode paths in both regimes. -/
theorem c7_narrowing_amended_witness :
    to_val_numeric 6 = Val.U32 (rustAsU32 6) ∧
    to_val_numeric (-3) = Val.I32 (rustAsI32 (-3)) ∧
    to_val_numeric (13 / 2) = Val.F32 (13 / 2) ∧
    apply_scale_u16 3 2 0 = Val.F32 ((3 : ℚ) * 2 + 0) ∧
    apply_scale_u16 7 1 0 = Val.U16 7 ∧
    apply_scale_i16 (-3) 2 0 = Val.F32 (((-3 : Int) : ℚ) * 2 + 0) ∧
    apply_scale_i16 (-5) 1 0 = Val.I16 (-5) ∧
    apply_scale_u32 3 2 0 = Val.F32 ((3 : ℚ) * 2 + 0) ∧
    apply_scale_u32 7 1 0 = Val.U32 7 ∧
    apply_scale_i32 (-3) 2 0 = Val.F32 (((-3 : Int) : ℚ) * 2 + 0) ∧
    apply_scale_i32 (-5) 1 0 = Val.I32 (-5) :=
  ⟨(c7_narrowing_amended.1 6).1 (by norm_num [rustFract, ratTrunc]) (by norm_num),
   (c7_narrowing_amended.1 (-3)).2.1 (by norm_num [rustFract, ratTrunc]) (by norm_num),
   (c7_narrowing_amended.1 (13 / 2)).2.2 (by
     rw [show rustFract ((13 : ℚ) / 2) = 1 / 2 by norm_num [rustFract, ratTrunc],
       abs_of_nonneg (by norm_num : (0 : ℚ) ≤ 1 / 2)]
     norm_num),
   c7_narrowing_amended.2.1 3 2 0 (by norm_num),
   c7_narrowing_amended.2.2.1 7,
   c7_narrowing_amended.2.2.2.1 (-3) 2 0 (by norm_num),
   c7_narrowing_amended.2.2.2.2.1 (-5),
   c7_narrowing_amended.2.2.2.2.2.1 3 2 0 (by norm_num),
   c7_narrowing_amended.2.2.2.2.2.2.1 7,
   c7_narrowing_amended.2.2.2.2.2.2.2.1 (-3) 2 0 (by norm_num),
   c7_narrowing_amended.2.2.2.2.2.2.2.2 (-5)⟩

/-! ## Claim C8: refusing writes with zero scale -/

/-- `scale_to_raw` refuses a zero scale for every value. -/
theorem scale_to_raw_zero (cfg : ModbusConfig) (v : Val) (h : cfg.scale = 0) :
    scale_to_raw cfg v = none := by
  cases v <;> simp [scale_to_raw, val_to_f64, h]

/-- `encode_registers` refuses a zero scale for numeric data types. -/
theorem encode_registers_zero_scale (cfg : ModbusConfig) (v : Val)
    (hdt : cfg.data_type = ModbusDataType.U16 ∨ cfg.data_type = ModbusDataType.I16 ∨
      cfg.data_type = ModbusDataType.U32 ∨ cfg.data_type = ModbusDataType.I32)
    (h : cfg.scale = 0) : encode_registers cfg v = none := by
  rcases hdt with hdt | hdt | hdt | hdt <;>
    simp [encode_registers, hdt, scale_to_raw_zero cfg v h]

/-- Counterexample for claim C8 as stated: an entry resolving to a point with
`scale == 0` can still contribute a register word — `scale` is never consulted
for `Bool`-typed holding registers (nor for coils), so the write goes through. -/
theorem c8_counterexample :
    c8BoolCfg.scale = 0 ∧
    c8BoolCfg.register_type = RegisterType.HoldingRegisters ∧
    WritePlan.build [c8BoolEntry] (build_cfg_map [c8BoolCfg]) =
      { coils := [], holding := [(5, [1])] } := by decide

/-- Claim C8, amended: for every outbound entry whose resolved point is a
*numeric* holding register (`U16`/`I16`/`U32`/`I32`) with `scale == 0`, the
write planner refuses the write — the per-entry step leaves the address maps
untouched, and the produced plan equals the plan built without that entry.
(`Bool`-typed holding registers and coils do not consult `scale`.) -/
theorem c8_scale_zero_refused (cfg_map : List (String × ModbusConfig))
    (e : Entry) (cfg : ModbusConfig)
    (hlook : lookupCfg cfg_map e.key = some cfg)
    (hrt : cfg.register_type = RegisterType.HoldingRegisters)
    (hdt : cfg.data_type = ModbusDataType.U16 ∨ cfg.data_type = ModbusDataType.I16 ∨
      cfg.data_type = ModbusDataType.U32 ∨ cfg.data_type = ModbusDataType.I32)
    (hsc : cfg.scale = 0) :
    (∀ st, buildStep cfg_map st e = st) ∧
    (∀ es1 es2, WritePlan.build (es1 ++ e :: es2) cfg_map =
      WritePlan.build (es1 ++ es2) cfg_map) := by
  have hstep : ∀ st, buildStep cfg_map st e = st := by
    intro st
    rw [buildStep, hlook]
    simp only [hrt]
    rw [encode_registers_zero_scale cfg e.value hdt hsc]
  refine ⟨hstep, ?_⟩
  intro es1 es2
  rw [WritePlan.build, WritePlan.build, List.foldl_append, List.foldl_append,
    List.foldl_cons, hstep]

/-- Witness for C8's amended theorem at its concrete input. -/
theorem c8_scale_zero_refused_witness :
    buildStep (build_cfg_map [c8NumCfg]) ([], []) c8NumEntry = ([], []) ∧
    WritePlan.build ([] ++ c8NumEntry :: []) (build_cfg_map [c8NumCfg]) =
      WritePlan.build ([] ++ []) (build_cfg_map [c8NumCfg]) :=
  ⟨(c8_scale_zero_refused (build_cfg_map [c8NumCfg]) c8NumEntry c8NumCfg
      (by decide) (by decide) (Or.inl (by decide)) (by decide)).1 ([], []),
   (c8_scale_zero_refused (build_cfg_map [c8NumCfg]) c8NumEntry c8NumCfg
      (by decide) (by decide) (Or.inl (by decide)) (by decide)).2 [] []⟩

/-! ## Claim C9: the 0xFFFF boundary point -/

/-- Claim C9 evaluated at its failing input.  A 2-word point at
`register_address = 0xFFFF` is *not* rejected at plan time: `Blocks::try_from`
computes `start + width` in `u16` (wrapping in release builds — a debug build
aborts on the overflow instead) and returns a block reaching past `0xFFFF`,
and the runner's `build_batches` likewise emits a batch `[65535, 65537)`, so a
2-register read at `0xFFFF` is issued rather than an error. -/
theorem c9_boundary_not_rejected :
    Blocks.tryFrom [c9Point] = Except.ok [c9Block] ∧
    build_batches [c9Point] = [c9Batch] ∧
    c9Point.register_address + c9Point.data_type.quantity = 65537 ∧
    65536 < c9Point.register_address + c9Point.data_type.quantity := by decide

/-! ## Claim C10: short replies are handled point-wise -/

/-- The word-class region loop equals a filter of the in-bounds regions. -/
theorem parseRegRegions_eq (regions : List Region) (data : List Nat) :
    ∀ out, parseRegRegions regions data out =
      out ++ (regions.filter (fun r => r.offset + r.width ≤ data.length)).map
        (fun r => (r.cfg.name,
          decode_register_value r.cfg ((data.drop r.offset).take r.width))) := by
  induction regions with
  | nil => intro out; simp [parseRegRegions]
  | cons r rest ih =>
    intro out
    have hstep : parseRegRegions (r :: rest) data out =
        parseRegRegions rest data
          (if data.length < r.offset + r.width then out
           else out ++ [(r.cfg.name,
             decode_register_value r.cfg ((data.drop r.offset).take r.width))]) := rfl
    rw [hstep]
    by_cases h : data.length < r.offset + r.width
    · have hnot : ¬ (r.offset + r.width ≤ data.length) := by omega
      rw [if_pos h, ih, List.filter_cons]
      simp [hnot]
    · have hyes : r.offset + r.width ≤ data.length := by omega
      rw [if_neg h, ih, List.filter_cons]
      simp [hyes]

/-- The bit-class region loop equals a filter of the in-bounds regions. -/
theorem parseBitRegions_eq (regions : List Region) (data : List Bool) :
    ∀ out, parseBitRegions regions data out =
      out ++ (regions.filter (fun r => r.offset < data.length)).map
        (fun r => (r.cfg.name, Val.U8 (if data.getD r.offset false then 1 else 0))) := by
  induction regions with
  | nil => intro out; simp [parseBitRegions]
  | cons r rest ih =>
    intro out
    have hstep : parseBitRegions (r :: rest) data out =
        parseBitRegions rest data
          (if data.length ≤ r.offset then out
           else out ++ [(r.cfg.name, Val.U8 (if data.getD r.offset false then 1 else 0))]) := rfl
    rw [hstep]
    by_cases h : data.length ≤ r.offset
    · have hnot : ¬ (r.offset < data.length) := by omega
      rw [if_pos h, ih, List.filter_cons]
      simp [hnot]
    · have hyes : r.offset < data.length := by omega
      rw [if_neg h, ih, List.filter_cons]
      simp [hyes]

/-- Claim C10.  Decoding a reply shorter than the planned block or batch is
total and point-wise: in `Blocks::parse`, a region whose `offset + width`
(or bit offset) exceeds the reply's length is skipped while every in-bounds
region is still decoded — the region loops equal a filter of the in-bounds
regions; the runner's `entry_from_reg_batch` likewise yields `None` exactly
when the point's slice would leave the reply and decodes the slice otherwise. -/
theorem c10_short_reply_skips_only_oob :
    (∀ (regions : List Region) (data : List Nat) (out : List (String × Val)),
      parseRegRegions regions data out =
        out ++ (regions.filter (fun r => r.offset + r.width ≤ data.length)).map
          (fun r => (r.cfg.name,
            decode_register_value r.cfg ((data.drop r.offset).take r.width)))) ∧
    (∀ (regions : List Region) (data : List Bool) (out : List (String × Val)),
      parseBitRegions regions data out =
        out ++ (regions.filter (fun r => r.offset < data.length)).map
          (fun r => (r.cfg.name, Val.U8 (if data.getD r.offset false then 1 else 0)))) ∧
    (∀ (cfg : ModbusConfig) (start : Nat) (vals : List Nat),
      (vals.length < cfg.register_address - start + cfg.quantity →
        entry_from_reg_batch cfg start vals = none) ∧
      (cfg.register_address - start + cfg.quantity ≤ vals.length →
        entry_from_reg_batch cfg start vals =
          build_entry_from_regs cfg
            ((vals.drop (cfg.register_address - start)).take cfg.quantity))) := by
  refine ⟨fun regions data out => parseRegRegions_eq regions data out,
    fun regions data out => parseBitRegions_eq regions data out, ?_⟩
  intro cfg start vals
  constructor
  · intro h
    rw [entry_from_reg_batch, if_pos h]
  · intro h
    rw [entry_from_reg_batch, if_neg (by omega)]

/-- Witness for C10 at a concrete short reply: a 1-word reply keeps the
in-bounds region and skips the 2-word region that would run past the end. -/
theorem c10_short_reply_skips_only_oob_witness :
    parseRegRegions [c10reg1, c10reg2] [5] [] =
      [] ++ ([c10reg1, c10reg2].filter (fun r => r.offset + r.width ≤ [5].length)).map
        (fun r => (r.cfg.name,
          decode_register_value r.cfg (([5].drop r.offset).take r.width))) ∧
    entry_from_reg_batch scen3z 10 [5, 6] = none :=
  ⟨c10_short_reply_skips_only_oob.1 [c10reg1, c10reg2] [5] [],
   (c10_short_reply_skips_only_oob.2.2 scen3z 10 [5, 6]).1 (by decide)⟩

/-! ## Claims C4 and C5: the runner's observable effects -/

/-- Everything the `run_connected` select loop emits is a relayed ingest of a
nonempty `read_all` result from some tick event. -/
theorem runConnLoop_mem (events : List ConnEvent) (eff : RunnerEffect)
    (h : eff ∈ runConnLoop events) :
    ∃ es, eff = RunnerEffect.ingest es ∧ es ≠ [] ∧
      ConnEvent.tick (Except.ok es) ∈ events := by
  induction events with
  | nil => simp [runConnLoop] at h
  | cons ev rest ih =>
    cases ev with
    | stopChanged b =>
      cases b with
      | true => simp [runConnLoop] at h
      | false =>
        simp only [runConnLoop, Bool.false_eq_true, if_false] at h
        rcases ih h with ⟨es, h1, h2, h3⟩
        exact ⟨es, h1, h2, List.mem_cons_of_mem _ h3⟩
    | tick res =>
      cases res with
      | ok entries =>
        cases entries with
        | nil =>
          simp only [runConnLoop, List.isEmpty_nil, if_true] at h
          rcases ih h with ⟨es, h1, h2, h3⟩
          exact ⟨es, h1, h2, List.mem_cons_of_mem _ h3⟩
        | cons a as =>
          simp only [runConnLoop, List.isEmpty_cons, if_false] at h
          rcases List.mem_cons.mp h with h1 | h1
          · exact ⟨a :: as, h1, List.cons_ne_nil a as, List.mem_cons_self _ _⟩
          · rcases ih h1 with ⟨es, h1', h2, h3⟩
            exact ⟨es, h1', h2, List.mem_cons_of_mem _ h3⟩
      | error e => simp [runConnLoop] at h

/-- Every effect of `ModbusRunner::run` is a lifecycle-state store or a
relayed ingest of a `read_all` result. -/
theorem runner_run_mem (script : List OuterStep) (eff : RunnerEffect)
    (h : eff ∈ runner_run script) :
    (∃ s, eff = RunnerEffect.storeState s) ∨
    (∃ es, eff = RunnerEffect.ingest es ∧ es ≠ [] ∧
      ∃ step ∈ script, ConnEvent.tick (Except.ok es) ∈ step.connEvents) := by
  induction script with
  | nil => simp [runner_run] at h
  | cons step rest ih =>
    rw [runner_run] at h
    by_cases hsb : step.stopBefore
    · rw [if_pos hsb] at h
      exact Or.inl ⟨_, List.mem_singleton.mp h⟩
    · rw [if_neg hsb] at h
      rcases List.mem_append.mp h with h1 | h2
      · rcases List.mem_append.mp h1 with h3 | h4
        · exact Or.inl ⟨_, List.mem_singleton.mp h3⟩
        · cases hc : step.connect with
          | ok u =>
            rw [hc] at h4
            rcases List.mem_append.mp h4 with h5 | h6
            · exact Or.inl ⟨_, List.mem_singleton.mp h5⟩
            · rw [run_connected] at h6
              rcases List.mem_cons.mp h6 with h7 | h8
              · exact Or.inl ⟨_, h7⟩
              · rcases runConnLoop_mem _ _ h8 with ⟨es, he, hne, hmem⟩
                exact Or.inr ⟨es, he, hne, step, List.mem_cons_self _ _, hmem⟩
          | error e =>
            rw [hc] at h4
            exact Or.inl ⟨_, List.mem_singleton.mp h4⟩
      · by_cases hsa : step.stopAfter
        · rw [if_pos hsa] at h2
          exact Or.inl ⟨_, List.mem_singleton.mp h2⟩
        · rw [if_neg hsa] at h2
          by_cases hds : step.stopDuringSleep
          · rw [if_pos hds] at h2
            exact Or.inl ⟨_, List.mem_singleton.mp h2⟩
          · rw [if_neg hds] at h2
            rcases ih h2 with h3 | ⟨es, he, hne, st, hst, hmem⟩
            · exact Or.inl h3
            · exact Or.inr ⟨es, he, hne, st, List.mem_cons_of_mem _ hst, hmem⟩

/-- Claim C4, evaluated against the code.  The runner never synthesizes a
`COMM_STATUS` point: a successful connect / poll / stop cycle produces only
the lifecycle stores `Connecting, Connected, Running, Stopped` and the relayed
poll result — no `Entry` keyed `"COMM_STATUS"` with `U8 1` on connect and none
with `U8 0` on stop — and in general every ingest the runner performs is a
nonempty `read_all` result taken verbatim from a tick; connectivity is
reflected only in the atomic lifecycle state. -/
theorem c4_no_comm_status :
    runner_run [demoStep] =
      [RunnerEffect.storeState LifecycleState.Connecting,
       RunnerEffect.storeState LifecycleState.Connected,
       RunnerEffect.storeState LifecycleState.Running,
       RunnerEffect.ingest [t1Entry],
       RunnerEffect.storeState LifecycleState.Stopped] ∧
    RunnerEffect.ingest [{ key := commStatusKey, value := Val.U8 1 }] ∉
      runner_run [demoStep] ∧
    RunnerEffect.ingest [{ key := commStatusKey, value := Val.U8 0 }] ∉
      runner_run [demoStep] ∧
    (∀ (script : List OuterStep) (es : List Entry),
      RunnerEffect.ingest es ∈ runner_run script →
      es ≠ [] ∧ ∃ step ∈ script, ConnEvent.tick (Except.ok es) ∈ step.connEvents) := by
  refine ⟨by decide, by decide, by decide, ?_⟩
  intro script es h
  rcases runner_run_mem script _ h with ⟨s, hs⟩ | ⟨es', he, hne, step, hst, hmem⟩
  · exact RunnerEffect.noConfusion hs
  · cases RunnerEffect.ingest.inj he
    exact ⟨hne, step, hst, hmem⟩

/-- Witness for C4's universally quantified part at the demo script. -/
theorem c4_no_comm_status_witness :
    [t1Entry] ≠ [] ∧
    ∃ step ∈ [demoStep], ConnEvent.tick (Except.ok [t1Entry]) ∈ step.connEvents :=
  c4_no_comm_status.2.2.2 [demoStep] [t1Entry] (by decide)

/-- Claim C5, evaluated against the code.  The connected runner never consumes
the device's downlink channel: its select loop has only the stop-signal and
tick arms, so every effect it can ever produce is a lifecycle store or a poll
ingest, and in particular no `apply_write_plan` bus write ever occurs — a
batch dispatched into the downlink channel is never received, and a closed
downlink channel is never observed. -/
theorem c5_no_downlink_handling :
    (∀ (script : List OuterStep) (eff : RunnerEffect), eff ∈ runner_run script →
      (∃ s, eff = RunnerEffect.storeState s) ∨ (∃ es, eff = RunnerEffect.ingest es)) ∧
    (∀ (script : List OuterStep) (coils : List (Nat × List Bool))
        (holding : List (Nat × List Nat)),
      RunnerEffect.busWrite coils holding ∉ runner_run script) := by
  have h1 : ∀ (script : List OuterStep) (eff : RunnerEffect), eff ∈ runner_run script →
      (∃ s, eff = RunnerEffect.storeState s) ∨ (∃ es, eff = RunnerEffect.ingest es) := by
    intro script eff h
    rcases runner_run_mem script eff h with ⟨s, hs⟩ | ⟨es, he, _, _⟩
    · exact Or.inl ⟨s, hs⟩
    · exact Or.inr ⟨es, he⟩
  refine ⟨h1, ?_⟩
  intro script coils holding hmem
  rcases h1 script _ hmem with ⟨s, hs⟩ | ⟨es, he⟩
  · exact RunnerEffect.noConfusion hs
  · exact RunnerEffect.noConfusion he

/-- Witness for C5 at the demo script. -/
theorem c5_no_downlink_handling_witness :
    ((∃ s, RunnerEffect.storeState LifecycleState.Connecting =
        RunnerEffect.storeState s) ∨
      (∃ es, RunnerEffect.storeState LifecycleState.Connecting =
        RunnerEffect.ingest es)) ∧
    RunnerEffect.busWrite [] [] ∉ runner_run [demoStep] :=
  ⟨c5_no_downlink_handling.1 [demoStep] _ (by decide),
   c5_no_downlink_handling.2 [demoStep] [] []⟩

/-! ## Claim C6: the write/read round trip -/

/-- `val_to_f64` is total and returns the numeric content. -/
theorem val_to_f64_eq (v : Val) : val_to_f64 v = some (valNum v) := by
  cases v <;> rfl

/-- Truncation fixes integers. -/
theorem ratTrunc_intCast (n : ℤ) : ratTrunc (n : ℚ) = n := by
  rw [ratTrunc]
  by_cases h : (0 : ℚ) ≤ (n : ℚ)
  · rw [if_pos h, Int.floor_intCast]
  · rw [if_neg h, ← Int.cast_neg, Int.floor_intCast]
    ring

/-- Rounding fixes integers. -/
theorem rustRound_intCast (n : ℤ) : rustRound (n : ℚ) = n := by
  rw [rustRound]
  by_cases h : (0 : ℚ) ≤ (n : ℚ)
  · rw [if_pos h, show ((n : ℚ) + 1 / 2) = 1 / 2 + (n : ℚ) by ring, Int.floor_add_int,
      show ⌊(1 : ℚ) / 2⌋ = 0 by norm_num]
    ring
  · rw [if_neg h, show ((1 : ℚ) / 2 - (n : ℚ)) = 1 / 2 + ((-n : ℤ) : ℚ) by push_cast; ring,
      Int.floor_add_int, show ⌊(1 : ℚ) / 2⌋ = 0 by norm_num]
    ring

/-- The byte swap of `u16_with_order` is an involution on 16-bit values. -/
theorem u16_with_order_involutive (w : Nat) (hw : w < 65536) (o : Option ByteOrder) :
    u16_with_order (u16_with_order w o) o = w := by
  rcases o with _ | bo
  · rfl
  · cases bo with
    | BA => simp only [u16_with_order]; omega
    | AB => rfl
    | ABCD => rfl
    | CDAB => rfl

/-- Word split then word composition restores a 32-bit value. -/
theorem u32_with_order_encode_u32 (v : Nat) (hv : v < 4294967296) (o : Option ByteOrder) :
    u32_with_order (encode_u32 v o) o = v := by
  rcases o with _ | bo
  · simp only [encode_u32, u32_with_order, List.getD_cons_zero, List.getD_cons_succ]
    omega
  · cases bo <;>
      (simp only [encode_u32, u32_with_order, List.getD_cons_zero, List.getD_cons_succ]
       omega)

/-- Reinterpreting an in-range `i16` through `u16` is the identity. -/
theorem i16_of_u16_of_i16 (n : ℤ) (h1 : -32768 ≤ n) (h2 : n ≤ 32767) :
    i16_of_u16 (u16_of_i16 n) = n := by
  rw [u16_of_i16, i16_of_u16]
  omega

/-- Reinterpreting an in-range `i32` through `u32` is the identity. -/
theorem i32_of_u32_of_i32 (n : ℤ) (h1 : -2147483648 ≤ n) (h2 : n ≤ 2147483647) :
    i32_of_u32 (u32_of_i32 n) = n := by
  rw [u32_of_i32, i32_of_u32]
  omega

/-- Inversion of a successful `scale_to_raw`. -/
theorem scale_to_raw_some {cfg : ModbusConfig} {value : Val} {raw : ℚ}
    (h : scale_to_raw cfg value = some raw) :
    ¬ |cfg.scale| < 1 / 1000000000000 ∧
      raw = (valNum value - cfg.offset) / cfg.scale := by
  simp only [scale_to_raw, val_to_f64_eq] at h
  split at h
  · exact absurd h (by simp)
  · exact ⟨by assumption, (Option.some.inj h).symm⟩

/-- Inversion of a successful `to_u16`. -/
theorem to_u16_some {raw : ℚ} {r : Nat} (h : to_u16 raw = some r) :
    0 ≤ rustRound raw ∧ rustRound raw ≤ 65535 ∧ r = (rustRound raw).toNat := by
  simp only [to_u16] at h
  split at h
  · exact ⟨by omega, by omega, (Option.some.inj h).symm⟩
  · exact absurd h (by simp)

/-- Inversion of a successful `to_i16`. -/
theorem to_i16_some {raw : ℚ} {r : Int} (h : to_i16 raw = some r) :
    -32768 ≤ rustRound raw ∧ rustRound raw ≤ 32767 ∧ r = rustRound raw := by
  simp only [to_i16] at h
  split at h
  · exact ⟨by omega, by omega, (Option.some.inj h).symm⟩
  · exact absurd h (by simp)

/-- Inversion of a successful `to_u32`. -/
theorem to_u32_some {raw : ℚ} {r : Nat} (h : to_u32 raw = some r) :
    0 ≤ rustRound raw ∧ rustRound raw ≤ 4294967295 ∧ r = (rustRound raw).toNat := by
  simp only [to_u32] at h
  split at h
  · exact ⟨by omega, by omega, (Option.some.inj h).symm⟩
  · exact absurd h (by simp)

/-- Inversion of a successful `to_i32`. -/
theorem to_i32_some {raw : ℚ} {r : Int} (h : to_i32 raw = some r) :
    -2147483648 ≤ rustRound raw ∧ rustRound raw ≤ 2147483647 ∧ r = rustRound raw := by
  simp only [to_i32] at h
  split at h
  · exact ⟨by omega, by omega, (Option.some.inj h).symm⟩
  · exact absurd h (by simp)

/-- The final narrowing moves a value by less than `1e-6` as long as it lies
strictly inside the `i32`/`u32` ranges (`|v| < 2^31`). -/
theorem to_val_numeric_close (v : ℚ) (hb : |v| < 2147483648) :
    |valNum (to_val_numeric v) - v| < 1 / 1000000 := by
  rcases abs_lt.mp hb with ⟨hb1, hb2⟩
  rw [to_val_numeric]
  by_cases hf : |rustFract v| < 1 / 1000000
  · rw [if_pos hf]
    by_cases hv : 0 ≤ v
    · rw [if_pos hv]
      rw [rustFract, ratTrunc, if_pos hv] at hf
      by_cases hz : v ≤ 0
      · have hv0 : v = 0 := le_antisymm hz hv
        subst hv0
        simp [rustAsU32, valNum]
      · have hfl0 : (0 : ℤ) ≤ ⌊v⌋ := Int.floor_nonneg.mpr hv
        have hflv : (⌊v⌋ : ℚ) ≤ v := Int.floor_le v
        have hfl31 : ⌊v⌋ < 2147483648 := Int.floor_lt.mpr (by exact_mod_cast hb2)
        have hmin : min (ratTrunc v).toNat 4294967295 = ⌊v⌋.toNat := by
          rw [ratTrunc, if_pos hv]
          exact Nat.min_eq_left (by omega)
        rw [rustAsU32, if_neg hz, hmin]
        have hcast : ((⌊v⌋.toNat : ℕ) : ℚ) = (⌊v⌋ : ℚ) := by
          exact_mod_cast congrArg (fun z : ℤ => (z : ℚ)) (Int.toNat_of_nonneg hfl0)
        simp only [valNum]
        rw [hcast, abs_sub_comm]
        exact hf
    · rw [if_neg hv]
      have hvneg : v < 0 := lt_of_not_ge hv
      rw [rustFract, ratTrunc, if_neg hv] at hf
      have hceil : (0 : ℤ) ≤ ⌊-v⌋ := Int.floor_nonneg.mpr (by linarith)
      have hle : (⌊-v⌋ : ℚ) ≤ -v := Int.floor_le (-v)
      have hlt31 : ⌊-v⌋ < 2147483648 := Int.floor_lt.mpr (by exact_mod_cast by linarith)
      have htr : ratTrunc v = -⌊-v⌋ := by rw [ratTrunc, if_neg hv]
      have hmin : min 2147483647 (ratTrunc v) = ratTrunc v := by
        rw [htr]; exact min_eq_right (by omega)
      have hmax : max (-2147483648) (ratTrunc v) = ratTrunc v := by
        rw [htr]; exact max_eq_right (by omega)
      rw [rustAsI32, hmin, hmax, htr]
      simp only [valNum]
      rw [abs_sub_comm]
      exact hf
  · rw [if_neg hf]
    simp [valNum]

/-- Counterexample for claim C6 as stated.  At `scale = 1e-7`, `offset = 0`,
writing `F32(3e-7)` encodes exactly (raw `3`, no rounding at all), yet reading
the same word back yields `U32 0`: the read decoder's final narrowing
truncates any result whose fractional part is below `1e-6`, a loss the claim
does not allow for ("up to the write encoder's f64-to-integer rounding"). -/
theorem c6_counterexample :
    encode_registers c6Cfg c6Value = some [3] ∧
    ((valNum c6Value - c6Cfg.offset) / c6Cfg.scale : ℚ) = 3 ∧
    decode_register_value c6Cfg [3] = Val.U32 0 ∧
    valNum (decode_register_value c6Cfg [3]) ≠ valNum c6Value := by
  have habs : |c6Cfg.scale| = 1 / 10000000 := by
    rw [show c6Cfg.scale = 1 / 10000000 from rfl,
      abs_of_nonneg (by norm_num : (0 : ℚ) ≤ 1 / 10000000)]
  have hr : scale_to_raw c6Cfg c6Value = some 3 := by
    simp only [scale_to_raw, val_to_f64_eq]
    rw [if_neg (by rw [habs]; norm_num)]
    norm_num [c6Cfg, c6Value, valNum]
  have ht : to_u16 3 = some 3 := by
    have h3r : rustRound 3 = 3 := by
      rw [show ((3 : ℚ)) = ((3 : ℤ) : ℚ) by norm_num, rustRound_intCast]
    simp [to_u16, h3r]
  have hdt : c6Cfg.data_type = ModbusDataType.U16 := rfl
  have hbo : c6Cfg.byte_order = none := rfl
  have h1 : encode_registers c6Cfg c6Value = some [3] := by
    simp only [encode_registers, hdt, hr, Option.pure_def, Option.bind_eq_bind,
      Option.some_bind, ht, hbo, u16_with_order]
  have htr0 : ratTrunc ((3 : ℚ) / 10000000) = 0 := by
    rw [ratTrunc, if_pos (by norm_num)]
    norm_num
  have h3 : decode_register_value c6Cfg [3] = Val.U32 0 := by
    simp only [decode_register_value, hdt, hbo, List.getD_cons_zero, u16_with_order,
      apply_scale_offset]
    have hy : ((3 : ℕ) : ℚ) * c6Cfg.scale + c6Cfg.offset = 3 / 10000000 := by
      norm_num [c6Cfg]
    rw [hy, to_val_numeric, if_pos ?hfr, if_pos (by norm_num)]
    case hfr =>
      rw [rustFract, htr0, show (((0 : ℤ)) : ℚ) = 0 by norm_num, sub_zero,
        abs_of_nonneg (by norm_num : (0 : ℚ) ≤ 3 / 10000000)]
      norm_num
    have hz : rustAsU32 ((3 : ℚ) / 10000000) = 0 := by
      rw [rustAsU32, if_neg (by norm_num), htr0]
      rfl
    rw [hz]
  refine ⟨h1, by norm_num [c6Cfg, c6Value, valNum], h3, ?_⟩
  rw [h3]
  norm_num [c6Value, valNum]

/-- Claim C6, amended.  For every scalar (numeric-typed) catalog point whose
encode succeeds, with identity transport and the same byte order on both
sides, and with an exact quotient `(v - offset) / scale = n ∈ ℤ` (so the
write encoder's rounding is not exercised), the read-back value differs from
the written value by less than `1e-6` — the residual error is the read
decoder's final narrowing, which truncates fractional parts below `1e-6`
(and, outside `|v| < 2^31`, would additionally saturate the `as u32`/`as i32`
casts).  Exact equality holds whenever the written value is itself such an
integer result. -/
theorem c6_roundtrip_amended (cfg : ModbusConfig) (value : Val) (ws : List Nat) (n : ℤ)
    (hdt : cfg.data_type = ModbusDataType.U16 ∨ cfg.data_type = ModbusDataType.I16 ∨
      cfg.data_type = ModbusDataType.U32 ∨ cfg.data_type = ModbusDataType.I32)
    (henc : encode_registers cfg value = some ws)
    (hn : (valNum value - cfg.offset) / cfg.scale = (n : ℚ))
    (hb : |valNum value| < 2147483648) :
    |valNum (decode_register_value cfg ws) - valNum value| < 1 / 1000000 := by
  rcases hdt with hdt | hdt | hdt | hdt
  · -- U16
    simp only [encode_registers, hdt, Option.pure_def, Option.bind_eq_bind] at henc
    cases hsr : scale_to_raw cfg value with
    | none => rw [hsr] at henc; simp at henc
    | some raw =>
      rw [hsr] at henc
      simp only [Option.some_bind] at henc
      cases ht : to_u16 raw with
      | none => rw [ht] at henc; simp at henc
      | some r =>
        rw [ht] at henc
        simp only [Option.some_bind] at henc
        have hws : ws = [u16_with_order r cfg.byte_order] := (Option.some.inj henc).symm
        rcases scale_to_raw_some hsr with ⟨hs, hraw⟩
        rcases to_u16_some ht with ⟨h0, h65, hr⟩
        have hsne : cfg.scale ≠ 0 := fun h0' => hs (by rw [h0']; norm_num)
        have hround : rustRound raw = n := by rw [hraw, hn, rustRound_intCast]
        rw [hround] at h0 h65 hr
        rw [hws]
        simp only [decode_register_value, hdt, List.getD_cons_zero]
        rw [u16_with_order_involutive r (by omega) cfg.byte_order]
        have hcast : ((r : ℕ) : ℚ) = (n : ℚ) := by
          rw [hr]
          exact_mod_cast Int.toNat_of_nonneg h0
        rw [apply_scale_offset, hcast]
        have hval : (n : ℚ) * cfg.scale + cfg.offset = valNum value := by
          rw [← hn, div_mul_cancel₀ _ hsne]
          ring
        rw [hval]
        exact to_val_numeric_close _ hb
  · -- I16
    simp only [encode_registers, hdt, Option.pure_def, Option.bind_eq_bind] at henc
    cases hsr : scale_to_raw cfg value with
    | none => rw [hsr] at henc; simp at henc
    | some raw =>
      rw [hsr] at henc
      simp only [Option.some_bind] at henc
      cases ht : to_i16 raw with
      | none => rw [ht] at henc; simp at henc
      | some r =>
        rw [ht] at henc
        simp only [Option.some_bind] at henc
        have hws : ws = [u16_with_order (u16_of_i16 r) cfg.byte_order] :=
          (Option.some.inj henc).symm
        rcases scale_to_raw_some hsr with ⟨hs, hraw⟩
        rcases to_i16_some ht with ⟨h0, h65, hr⟩
        have hsne : cfg.scale ≠ 0 := fun h0' => hs (by rw [h0']; norm_num)
        have hround : rustRound raw = n := by rw [hraw, hn, rustRound_intCast]
        rw [hround] at h0 h65 hr
        rw [hr] at hws
        rw [hws]
        simp only [decode_register_value, hdt, List.getD_cons_zero]
        rw [u16_with_order_involutive (u16_of_i16 n) (by rw [u16_of_i16]; omega)
          cfg.byte_order]
        rw [i16_of_u16_of_i16 n h0 h65]
        rw [apply_scale_offset]
        have hval : ((n : ℤ) : ℚ) * cfg.scale + cfg.offset = valNum value := by
          rw [← hn, div_mul_cancel₀ _ hsne]
          ring
        rw [hval]
        exact to_val_numeric_close _ hb
  · -- U32
    simp only [encode_registers, hdt, Option.pure_def, Option.bind_eq_bind] at henc
    cases hsr : scale_to_raw cfg value with
    | none => rw [hsr] at henc; simp at henc
    | some raw =>
      rw [hsr] at henc
      simp only [Option.some_bind] at henc
      cases ht : to_u32 raw with
      | none => rw [ht] at henc; simp at henc
      | some r =>
        rw [ht] at henc
        simp only [Option.some_bind] at henc
        have hws : ws = encode_u32 r cfg.byte_order := (Option.some.inj henc).symm
        rcases scale_to_raw_some hsr with ⟨hs, hraw⟩
        rcases to_u32_some ht with ⟨h0, h65, hr⟩
        have hsne : cfg.scale ≠ 0 := fun h0' => hs (by rw [h0']; norm_num)
        have hround : rustRound raw = n := by rw [hraw, hn, rustRound_intCast]
        rw [hround] at h0 h65 hr
        rw [hws]
        simp only [decode_register_value, hdt]
        rw [u32_with_order_encode_u32 r (by omega) cfg.byte_order]
        have hcast : ((r : ℕ) : ℚ) = (n : ℚ) := by
          rw [hr]
          exact_mod_cast Int.toNat_of_nonneg h0
        rw [apply_scale_offset, hcast]
        have hval : (n : ℚ) * cfg.scale + cfg.offset = valNum value := by
          rw [← hn, div_mul_cancel₀ _ hsne]
          ring
        rw [hval]
        exact to_val_numeric_close _ hb
  · -- I32
    simp only [encode_registers, hdt, Option.pure_def, Option.bind_eq_bind] at henc
    cases hsr : scale_to_raw cfg value with
    | none => rw [hsr] at henc; simp at henc
    | some raw =>
      rw [hsr] at henc
      simp only [Option.some_bind] at henc
      cases ht : to_i32 raw with
      | none => rw [ht] at henc; simp at henc
      | some r =>
        rw [ht] at henc
        simp only [Option.some_bind] at henc
        have hws : ws = encode_u32 (u32_of_i32 r) cfg.byte_order :=
          (Option.some.inj henc).symm
        rcases scale_to_raw_some hsr with ⟨hs, hraw⟩
        rcases to_i32_some ht with ⟨h0, h65, hr⟩
        have hsne : cfg.scale ≠ 0 := fun h0' => hs (by rw [h0']; norm_num)
        have hround : rustRound raw = n := by rw [hraw, hn, rustRound_intCast]
        rw [hround] at h0 h65 hr
        rw [hr] at hws
        rw [hws]
        simp only [decode_register_value, hdt]
        rw [u32_with_order_encode_u32 (u32_of_i32 n) (by rw [u32_of_i32]; omega)
          cfg.byte_order]
        rw [i32_of_u32_of_i32 n h0 h65]
        rw [apply_scale_offset]
        have hval : ((n : ℤ) : ℚ) * cfg.scale + cfg.offset = valNum value := by
          rw [← hn, div_mul_cancel₀ _ hsne]
          ring
        rw [hval]
        exact to_val_numeric_close _ hb

/-- Witness for C6's amended theorem: `scale = 0.5`, `offset = 1`, writing
`F32 6.5` encodes to word 11 and reads back within `1e-6`. -/
theorem c6_roundtrip_amended_witness :
    |valNum (decode_register_value c6wCfg [11]) - valNum (Val.F32 (13 / 2))| <
      1 / 1000000 :=
  c6_roundtrip_amended c6wCfg (Val.F32 (13 / 2)) [11] 11 (Or.inl rfl)
    (by
      have hr : scale_to_raw c6wCfg (Val.F32 (13 / 2)) = some 11 := by
        simp only [scale_to_raw, val_to_f64_eq]
        rw [if_neg (by
          rw [show c6wCfg.scale = 1 / 2 from rfl,
            abs_of_nonneg (by norm_num : (0 : ℚ) ≤ 1 / 2)]
          norm_num)]
        norm_num [c6wCfg, valNum]
      have ht : to_u16 11 = some 11 := by
        have h11 : rustRound 11 = 11 := by
          rw [show ((11 : ℚ)) = ((11 : ℤ) : ℚ) by norm_num, rustRound_intCast]
        simp [to_u16, h11]
      simp only [encode_registers, show c6wCfg.data_type = ModbusDataType.U16 from rfl,
        hr, Option.pure_def, Option.bind_eq_bind, Option.some_bind, ht,
        show c6wCfg.byte_order = none from rfl, u16_with_order])
    (by norm_num [c6wCfg, valNum])
    (by
      rw [show valNum (Val.F32 (13 / 2)) = 13 / 2 from rfl,
        abs_of_nonneg (by norm_num : (0 : ℚ) ≤ 13 / 2)]
      norm_num)

/-! ## Claims C2 and C3: the block planner -/

theorem quantity_pos (dt : ModbusDataType) : 1 ≤ dt.quantity := by
  cases dt <;> simp [ModbusDataType.quantity]

theorem quantity_le_two (dt : ModbusDataType) : dt.quantity ≤ 2 := by
  cases dt <;> simp [ModbusDataType.quantity]

theorem maxLenFor_ge (rt : RegisterType) : 120 ≤ maxLenFor rt := by
  cases rt <;> simp [maxLenFor]

theorem maxLenFor_le (rt : RegisterType) : maxLenFor rt ≤ 2000 := by
  cases rt <;> simp [maxLenFor]

theorem wsub16_wadd (s tw : Nat) (hs : s < 65536) (htw : tw ≤ 2000) :
    wsub16 ((s + tw) % 65536) s = tw := by
  rw [wsub16]
  omega

theorem insertByAddr_perm (c : ModbusConfig) (l : List ModbusConfig) :
    (insertByAddr c l).Perm (c :: l) := by
  induction l with
  | nil => simp [insertByAddr]
  | cons x rest ih =>
    rw [insertByAddr]
    by_cases h : x.register_address < c.register_address
    · rw [if_pos h]
      exact (ih.cons x).trans (List.Perm.swap c x rest)
    · rw [if_neg h]

theorem sortByAddr_perm (l : List ModbusConfig) : (sortByAddr l).Perm l := by
  induction l with
  | nil => simp [sortByAddr]
  | cons c rest ih =>
    rw [sortByAddr]
    exact (insertByAddr_perm c (sortByAddr rest)).trans (ih.cons c)

theorem mem_insertByAddr {b c : ModbusConfig} {l : List ModbusConfig} :
    b ∈ insertByAddr c l ↔ b = c ∨ b ∈ l := by
  rw [(insertByAddr_perm c l).mem_iff, List.mem_cons]

theorem sortedAddr_insertByAddr (c : ModbusConfig) (l : List ModbusConfig)
    (h : l.Pairwise (fun a b => a.register_address ≤ b.register_address)) :
    (insertByAddr c l).Pairwise
      (fun a b => a.register_address ≤ b.register_address) := by
  induction l with
  | nil => simp [insertByAddr]
  | cons x rest ih =>
    rcases List.pairwise_cons.mp h with ⟨hxall, hrest⟩
    rw [insertByAddr]
    by_cases hx : x.register_address < c.register_address
    · rw [if_pos hx]
      refine List.pairwise_cons.mpr ⟨?_, ih hrest⟩
      intro b hb
      rcases mem_insertByAddr.mp hb with rfl | hb2
      · omega
      · exact hxall b hb2
    · rw [if_neg hx]
      refine List.pairwise_cons.mpr ⟨?_, h⟩
      intro b hb
      rcases List.mem_cons.mp hb with rfl | hb2
      · omega
      · exact le_trans (by omega) (hxall b hb2)

theorem sortByAddr_sorted (l : List ModbusConfig) :
    (sortByAddr l).Pairwise (fun a b => a.register_address ≤ b.register_address) := by
  induction l with
  | nil => simp [sortByAddr]
  | cons c rest ih =>
    rw [sortByAddr]
    exact sortedAddr_insertByAddr c _ ih

theorem sortedGroup_perm (rt : RegisterType) (cats : List ModbusConfig) :
    (sortedGroup rt cats).Perm (cats.filter (fun c => c.register_type = rt)) :=
  sortByAddr_perm _

theorem mem_sortedGroup {rt : RegisterType} {cats : List ModbusConfig}
    {p : ModbusConfig} (hp : p ∈ sortedGroup rt cats) :
    p ∈ cats ∧ p.register_type = rt := by
  have h := (sortedGroup_perm rt cats).mem_iff.mp hp
  rcases List.mem_filter.mp h with ⟨h1, h2⟩
  exact ⟨h1, by simpa using h2⟩

theorem intervalDisjoint_symm {p q : ModbusConfig} (h : IntervalDisjoint p q) :
    IntervalDisjoint q p := h.symm

theorem staircase_of_noOverlap (rt : RegisterType) (cats : List ModbusConfig)
    (hno : NoClassOverlap cats) :
    (sortedGroup rt cats).Pairwise Staircase := by
  have h1 : (cats.filter (fun c => c.register_type = rt)).Pairwise
      (fun p q => p.register_type = q.register_type → IntervalDisjoint p q) :=
    List.Pairwise.sublist (List.filter_sublist _) hno
  have h2 : (cats.filter (fun c => c.register_type = rt)).Pairwise IntervalDisjoint := by
    refine h1.imp_of_mem ?_
    intro a b ha hb hab
    have ha' := (List.mem_filter.mp ha).2
    have hb' := (List.mem_filter.mp hb).2
    simp only [decide_eq_true_eq] at ha' hb'
    exact hab (by rw [ha', hb'])
  have h3 : (sortedGroup rt cats).Pairwise IntervalDisjoint :=
    ((sortedGroup_perm rt cats).pairwise_iff
      (fun h => intervalDisjoint_symm h)).mpr h2
  have h4 : (sortedGroup rt cats).Pairwise
      (fun a b => a.register_address ≤ b.register_address) := by
    rw [sortedGroup]
    exact sortByAddr_sorted _
  refine (h3.and h4).imp ?_
  intro a b hab
  rcases hab with ⟨hd | hd, hle⟩
  · exact hd
  · have := quantity_pos b.data_type
    rw [Staircase]
    omega

theorem filter_partition_perm (cats : List ModbusConfig) :
    (cats.filter (fun c => c.register_type = RegisterType.Coils) ++
     cats.filter (fun c => c.register_type = RegisterType.DiscreteInputs) ++
     cats.filter (fun c => c.register_type = RegisterType.HoldingRegisters) ++
     cats.filter (fun c => c.register_type = RegisterType.InputRegisters)).Perm
      cats := by
  induction cats with
  | nil => simp
  | cons c rest ih =>
    simp only [List.filter_cons]
    cases hrt : c.register_type
    case Coils =>
      rw [if_pos (by simp), if_neg (by simp),
        if_neg (by simp), if_neg (by simp)]
      have h1 : (c :: rest.filter (fun c => c.register_type = RegisterType.Coils)) ++
          rest.filter (fun c => c.register_type = RegisterType.DiscreteInputs) ++
          rest.filter (fun c => c.register_type = RegisterType.HoldingRegisters) ++
          rest.filter (fun c => c.register_type = RegisterType.InputRegisters) =
          c :: (rest.filter (fun c => c.register_type = RegisterType.Coils) ++
            rest.filter (fun c => c.register_type = RegisterType.DiscreteInputs) ++
            rest.filter (fun c => c.register_type = RegisterType.HoldingRegisters) ++
            rest.filter (fun c => c.register_type = RegisterType.InputRegisters)) := by
        simp
      rw [h1]
      exact ih.cons c
    case DiscreteInputs =>
      rw [if_neg (by simp), if_pos (by simp),
        if_neg (by simp), if_neg (by simp)]
      have h1 : rest.filter (fun c => c.register_type = RegisterType.Coils) ++
          (c :: rest.filter (fun c => c.register_type = RegisterType.DiscreteInputs)) ++
          rest.filter (fun c => c.register_type = RegisterType.HoldingRegisters) ++
          rest.filter (fun c => c.register_type = RegisterType.InputRegisters) =
          rest.filter (fun c => c.register_type = RegisterType.Coils) ++
            c :: (rest.filter (fun c => c.register_type = RegisterType.DiscreteInputs) ++
              (rest.filter (fun c => c.register_type = RegisterType.HoldingRegisters) ++
               rest.filter (fun c => c.register_type = RegisterType.InputRegisters))) := by
        simp [List.append_assoc]
      rw [h1]
      refine List.Perm.trans List.perm_middle ?_
      refine List.Perm.cons c ?_
      refine List.Perm.trans ?_ ih
      simp [List.append_assoc]
    case HoldingRegisters =>
      rw [if_neg (by simp), if_neg (by simp),
        if_pos (by simp), if_neg (by simp)]
      have h1 : rest.filter (fun c => c.register_type = RegisterType.Coils) ++
          rest.filter (fun c => c.register_type = RegisterType.DiscreteInputs) ++
          (c :: rest.filter (fun c => c.register_type = RegisterType.HoldingRegisters)) ++
          rest.filter (fun c => c.register_type = RegisterType.InputRegisters) =
          (rest.filter (fun c => c.register_type = RegisterType.Coils) ++
            rest.filter (fun c => c.register_type = RegisterType.DiscreteInputs)) ++
            c :: (rest.filter (fun c => c.register_type = RegisterType.HoldingRegisters) ++
              rest.filter (fun c => c.register_type = RegisterType.InputRegisters)) := by
        simp [List.append_assoc]
      rw [h1]
      refine List.Perm.trans List.perm_middle ?_
      refine List.Perm.cons c ?_
      refine List.Perm.trans ?_ ih
      simp [List.append_assoc]
    case InputRegisters =>
      rw [if_neg (by simp), if_neg (by simp),
        if_neg (by simp), if_pos (by simp)]
      refine List.Perm.trans List.perm_middle ?_
      exact List.Perm.cons c ih

theorem curLenTrue_newCur (p : ModbusConfig) :
    curLenTrue (newCur p) = p.data_type.quantity := by
  simp [curLenTrue, newCur]

theorem curFW_newCur (p : ModbusConfig) :
    curFW (newCur p) = p.data_type.quantity := by
  simp [curFW, newCur]

theorem regions_newCur_cfg (p : ModbusConfig) :
    (newCur p).regions.map Region.cfg = [p] := by
  simp [newCur]

theorem blocksCfgs_append (l1 l2 : List Block) :
    blocksCfgs (l1 ++ l2) = blocksCfgs l1 ++ blocksCfgs l2 := by
  simp [blocksCfgs]

theorem blocksCfgs_close (rt : RegisterType) (cur : CurBlock) :
    blocksCfgs [closeBlock rt cur] = cur.regions.map Region.cfg := by
  simp [blocksCfgs, closeBlock]

theorem closeBlock_len (rt : RegisterType) (cur : CurBlock)
    (hs : cur.start < 65536) (htw : curLenTrue cur ≤ 2000)
    (hend : cur.endExcl = (cur.start + curLenTrue cur) % 65536) :
    (closeBlock rt cur).len = curLenTrue cur := by
  rw [closeBlock]
  simp only [hend]
  exact wsub16_wadd _ _ hs htw

theorem sweep_ok (rt : RegisterType) :
    ∀ (pts : List ModbusConfig) (done : List Block) (cur : CurBlock),
    pts.Pairwise Staircase →
    (∀ q ∈ pts, cur.start + curLenTrue cur ≤ q.register_address) →
    (∀ q ∈ pts, q.register_address < 65536) →
    SweepInv rt done cur →
    ∃ done' cur', pts.foldlM (sweepStep rt) (done, cur) = Except.ok (done', cur') ∧
      SweepInv rt done' cur' ∧
      blocksCfgs done' ++ cur'.regions.map Region.cfg =
        (blocksCfgs done ++ cur.regions.map Region.cfg) ++ pts := by
  intro pts
  induction pts with
  | nil =>
    intro done cur _ _ _ hinv
    exact ⟨done, cur, by rw [List.foldlM_nil]; rfl, hinv, by simp⟩
  | cons p rest ih =>
    intro done cur hpair hafter haddr hinv
    obtain ⟨hs, htw1, htwle, hregs, hend, hdone, hpw⟩ := hinv
    have htw2000 : curLenTrue cur ≤ 2000 := le_trans htwle (maxLenFor_le rt)
    have hpa : cur.start + curLenTrue cur ≤ p.register_address :=
      hafter p (List.mem_cons_self _ _)
    have hpa65 : p.register_address < 65536 := haddr p (List.mem_cons_self _ _)
    have hendx : cur.endExcl = cur.start + curLenTrue cur := by
      rw [hend]; omega
    have hw1 : 1 ≤ p.data_type.quantity := quantity_pos _
    have hw2 : p.data_type.quantity ≤ 2 := quantity_le_two _
    have hml : 120 ≤ maxLenFor rt := maxLenFor_ge rt
    rcases List.pairwise_cons.mp hpair with ⟨hpall, hrest_pair⟩
    have htws : wsub16 cur.endExcl cur.start = curLenTrue cur := by
      rw [hend]
      exact wsub16_wadd _ _ hs htw2000
    have hclen : (closeBlock rt cur).len = curLenTrue cur :=
      closeBlock_len rt cur hs htw2000 hend
    -- the invariant for a freshly closed block and a new open block at p,
    -- used by both the length-break and the gap branches
    have hnewInv : cur.start + curLenTrue cur ≤ p.register_address →
        (cur.start + curLenTrue cur = p.register_address →
          maxLenFor rt < curLenTrue cur + p.data_type.quantity) →
        SweepInv rt (done ++ [closeBlock rt cur]) (newCur p) := by
      intro hle hbreak
      refine ⟨by simp [newCur]; omega, ?_, ?_, by simp [newCur], ?_, ?_, ?_⟩
      · rw [curLenTrue_newCur]; omega
      · rw [curLenTrue_newCur]; omega
      · rw [curLenTrue_newCur]; simp [newCur, wadd16]
      · intro b hb
        rcases List.mem_append.mp hb with hb1 | hb2
        · obtain ⟨hb1', hb2', hb3', hb4', hb5', hb6'⟩ := hdone b hb1
          refine ⟨hb1', hb2', hb3', hb4', ?_, ?_⟩
          · simp only [newCur]; omega
          · intro hEq
            simp only [newCur] at hEq
            omega
        · rw [List.mem_singleton.mp hb2]
          refine ⟨by rw [hclen]; omega, by rw [hclen]; omega,
            by simp [closeBlock, hregs], by simp [closeBlock], ?_, ?_⟩
          · simp only [closeBlock, newCur, hclen]
            omega
          · intro hEq
            rw [curFW_newCur, hclen]
            simp only [closeBlock, newCur, hclen] at hEq
            exact hbreak (by omega)
      · rw [List.pairwise_append]
        refine ⟨hpw, by simp, ?_⟩
        intro b hb B hB
        rw [List.mem_singleton.mp hB]
        obtain ⟨hb1', hb2', hb3', hb4', hb5', hb6'⟩ := hdone b hb
        constructor
        · intro ⟨_, hm2, _, hm4⟩
          simp only [closeBlock] at hm2
          rw [hb4'] at hm4
          have hcw : ((closeBlock rt cur).regions.map Region.width).headD 0 =
              curFW cur := rfl
          rw [hcw] at hm4
          exact absurd (hb6' hm2.symm) (not_lt.mpr hm4)
        · intro ⟨_, hm2, _, _⟩
          simp only [closeBlock, hclen] at hm2
          omega
    by_cases heq : p.register_address = cur.endExcl
    · -- contiguous
      have heqn : p.register_address = cur.start + curLenTrue cur := by
        rw [heq, hendx]
      by_cases hbr : maxLenFor rt <
          satAdd16 (wsub16 cur.endExcl cur.start) p.data_type.quantity
      · -- length break: close and restart at p
        have hbr' : maxLenFor rt < curLenTrue cur + p.data_type.quantity := by
          rw [htws, satAdd16] at hbr
          omega
        have hstep : sweepStep rt (done, cur) p =
            Except.ok (done ++ [closeBlock rt cur], newCur p) := by
          simp only [sweepStep]
          rw [if_pos heq, if_pos hbr]
        obtain ⟨done', cur', hfold, hinv', hcov⟩ :=
          ih (done ++ [closeBlock rt cur]) (newCur p) hrest_pair
            (by
              intro q hq
              have := hpall q hq
              rw [Staircase] at this
              simp only [newCur, curLenTrue_newCur]
              exact this)
            (fun q hq => haddr q (List.mem_cons_of_mem _ hq))
            (hnewInv (by omega) (fun _ => hbr'))
        refine ⟨done', cur', ?_, hinv', ?_⟩
        · rw [List.foldlM_cons, hstep]
          exact hfold
        · rw [hcov, blocksCfgs_append, blocksCfgs_close, regions_newCur_cfg]
          simp
      · -- merge p into the open block
        have hfit : curLenTrue cur + p.data_type.quantity ≤ maxLenFor rt := by
          rw [htws, satAdd16] at hbr
          omega
        set cur2 : CurBlock :=
          { start := cur.start
            endExcl := wadd16 cur.endExcl p.data_type.quantity
            regions := cur.regions ++
              [{ cfg := p, offset := wsub16 p.register_address cur.start,
                 width := p.data_type.quantity }] } with hcur2
        have hstep : sweepStep rt (done, cur) p = Except.ok (done, cur2) := by
          simp only [sweepStep]
          rw [if_pos heq, if_neg hbr]
        have hlen2 : curLenTrue cur2 = curLenTrue cur + p.data_type.quantity := by
          simp [hcur2, curLenTrue, List.map_append, List.sum_append]
        have hfw2 : curFW cur2 = curFW cur := by
          rcases hr : cur.regions with _ | ⟨r0, rs⟩
          · exact absurd hr hregs
          · simp [hcur2, curFW, hr]
        have hinv2 : SweepInv rt done cur2 := by
          refine ⟨by simp [hcur2]; omega, ?_, ?_, by simp [hcur2], ?_, ?_, hpw⟩
          · rw [hlen2]; omega
          · rw [hlen2]; exact hfit
          · rw [hlen2]
            simp only [hcur2, wadd16, hend]
            omega
          · intro b hb
            obtain ⟨hb1', hb2', hb3', hb4', hb5', hb6'⟩ := hdone b hb
            refine ⟨hb1', hb2', hb3', hb4', by simpa [hcur2] using hb5', ?_⟩
            intro hEq
            rw [hfw2]
            exact hb6' (by simpa [hcur2] using hEq)
        obtain ⟨done', cur', hfold, hinv', hcov⟩ :=
          ih done cur2 hrest_pair
            (by
              intro q hq
              have := hpall q hq
              rw [Staircase] at this
              simp only [hcur2, hlen2]
              omega)
            (fun q hq => haddr q (List.mem_cons_of_mem _ hq))
            hinv2
        refine ⟨done', cur', ?_, hinv', ?_⟩
        · rw [List.foldlM_cons, hstep]
          exact hfold
        · rw [hcov]
          simp [hcur2]
    · -- not contiguous: with no overlap this is a gap, close and restart
      have hgt : cur.endExcl < p.register_address := by
        rw [hendx]
        rcases lt_or_eq_of_le hpa with h | h
        · exact h
        · exact absurd (by rw [hendx, ← h]) heq
      have hstep : sweepStep rt (done, cur) p =
          Except.ok (done ++ [closeBlock rt cur], newCur p) := by
        simp only [sweepStep]
        rw [if_neg heq, if_pos hgt]
      have hgtn : cur.start + curLenTrue cur < p.register_address := by
        rw [← hendx]; exact hgt
      obtain ⟨done', cur', hfold, hinv', hcov⟩ :=
        ih (done ++ [closeBlock rt cur]) (newCur p) hrest_pair
          (by
            intro q hq
            have := hpall q hq
            rw [Staircase] at this
            simp only [newCur, curLenTrue_newCur]
            exact this)
          (fun q hq => haddr q (List.mem_cons_of_mem _ hq))
          (hnewInv (by omega) (fun hEq => absurd hEq (by omega)))
      refine ⟨done', cur', ?_, hinv', ?_⟩
      · rw [List.foldlM_cons, hstep]
        exact hfold
      · rw [hcov, blocksCfgs_append, blocksCfgs_close, regions_newCur_cfg]
        simp

theorem close_props (rt : RegisterType) (done : List Block) (cur : CurBlock)
    (hinv : SweepInv rt done cur) :
    (∀ b ∈ done ++ [closeBlock rt cur], 1 ≤ b.len ∧ b.len ≤ maxLenFor rt ∧
      b.regions ≠ [] ∧ b.register_type = rt) ∧
    (done ++ [closeBlock rt cur]).Pairwise
      (fun b1 b2 => ¬ Mergeable b1 b2 ∧ ¬ Mergeable b2 b1) ∧
    blocksCfgs (done ++ [closeBlock rt cur]) =
      blocksCfgs done ++ cur.regions.map Region.cfg := by
  obtain ⟨hs, htw1, htwle, hregs, hend, hdone, hpw⟩ := hinv
  have htw2000 : curLenTrue cur ≤ 2000 := le_trans htwle (maxLenFor_le rt)
  have hclen : (closeBlock rt cur).len = curLenTrue cur :=
    closeBlock_len rt cur hs htw2000 hend
  refine ⟨?_, ?_, by rw [blocksCfgs_append, blocksCfgs_close]⟩
  · intro b hb
    rcases List.mem_append.mp hb with hb1 | hb2
    · obtain ⟨h1, h2, h3, h4, _, _⟩ := hdone b hb1
      exact ⟨h1, h2, h3, h4⟩
    · rw [List.mem_singleton.mp hb2]
      exact ⟨by rw [hclen]; omega, by rw [hclen]; omega,
        by simp [closeBlock, hregs], by simp [closeBlock]⟩
  · rw [List.pairwise_append]
    refine ⟨hpw, by simp, ?_⟩
    intro b hb B hB
    rw [List.mem_singleton.mp hB]
    obtain ⟨hb1', hb2', hb3', hb4', hb5', hb6'⟩ := hdone b hb
    constructor
    · intro ⟨_, hm2, _, hm4⟩
      simp only [closeBlock] at hm2
      rw [hb4'] at hm4
      have hcw : ((closeBlock rt cur).regions.map Region.width).headD 0 =
          curFW cur := rfl
      rw [hcw] at hm4
      exact absurd (hb6' hm2.symm) (not_lt.mpr hm4)
    · intro ⟨_, hm2, _, _⟩
      simp only [closeBlock, hclen] at hm2
      omega

theorem planGroup_ok (rt : RegisterType) (cats : List ModbusConfig)
    (hstair : (sortedGroup rt cats).Pairwise Staircase)
    (haddr : ∀ q ∈ sortedGroup rt cats, q.register_address < 65536) :
    ∃ bs, planGroup rt cats = Except.ok bs ∧
      (∀ b ∈ bs, 1 ≤ b.len ∧ b.len ≤ maxLenFor rt ∧ b.regions ≠ [] ∧
        b.register_type = rt) ∧
      bs.Pairwise (fun b1 b2 => ¬ Mergeable b1 b2 ∧ ¬ Mergeable b2 b1) ∧
      blocksCfgs bs = sortedGroup rt cats := by
  rcases hg : sortedGroup rt cats with _ | ⟨first, rest⟩
  · refine ⟨[], ?_, by simp, by simp, by simp [blocksCfgs]⟩
    simp only [planGroup, hg]
  · rw [hg] at hstair haddr
    rcases List.pairwise_cons.mp hstair with ⟨hfall, hrest⟩
    have hf65 : first.register_address < 65536 := haddr first (List.mem_cons_self _ _)
    have hw1 : 1 ≤ first.data_type.quantity := quantity_pos _
    have hw2 : first.data_type.quantity ≤ 2 := quantity_le_two _
    have hml : 120 ≤ maxLenFor rt := maxLenFor_ge rt
    have hinv0 : SweepInv rt [] (newCur first) := by
      refine ⟨by simp [newCur]; omega, ?_, ?_, by simp [newCur], ?_, by simp, by simp⟩
      · rw [curLenTrue_newCur]; omega
      · rw [curLenTrue_newCur]; omega
      · rw [curLenTrue_newCur]; simp [newCur, wadd16]
    obtain ⟨done', cur', hfold, hinv', hcov⟩ :=
      sweep_ok rt rest [] (newCur first) hrest
        (by
          intro q hq
          have := hfall q hq
          rw [Staircase] at this
          simp only [newCur, curLenTrue_newCur]
          exact this)
        (fun q hq => haddr q (List.mem_cons_of_mem _ hq))
        hinv0
    obtain ⟨hprops, hpw, hcfgs⟩ := close_props rt done' cur' hinv'
    refine ⟨done' ++ [closeBlock rt cur'], ?_, hprops, hpw, ?_⟩
    · simp only [planGroup, hg]
      rw [hfold]
      rfl
    · rw [hcfgs, hcov]
      simp [blocksCfgs, regions_newCur_cfg]

/-- Claim C2.  For every catalog of 16-bit-addressed points with no
overlapping addresses within a register class, `Blocks::try_from` succeeds,
the produced regions carry exactly the catalog points (one region per point —
a permutation of the catalog), every block respects its class's length limit
(2000 for the bit classes, 120 for the register classes), no block is empty,
and no two produced blocks are mergeable under the sweep's
contiguity-and-length rules. -/
theorem c2_plan_correct (cats : List ModbusConfig)
    (haddr : ∀ p ∈ cats, p.register_address < 65536)
    (hno : NoClassOverlap cats) :
    ∃ bs, Blocks.tryFrom cats = Except.ok bs ∧
      (blocksCfgs bs).Perm cats ∧
      (∀ b ∈ bs, 1 ≤ b.len ∧ b.len ≤ maxLenFor b.register_type ∧ b.regions ≠ []) ∧
      bs.Pairwise (fun b1 b2 => ¬ Mergeable b1 b2 ∧ ¬ Mergeable b2 b1) := by
  have haddrG : ∀ rt : RegisterType, ∀ q ∈ sortedGroup rt cats,
      q.register_address < 65536 :=
    fun rt q hq => haddr q (mem_sortedGroup hq).1
  obtain ⟨bs1, he1, hp1, hw1, hc1⟩ := planGroup_ok RegisterType.Coils cats
    (staircase_of_noOverlap _ cats hno) (haddrG _)
  obtain ⟨bs2, he2, hp2, hw2, hc2⟩ := planGroup_ok RegisterType.DiscreteInputs cats
    (staircase_of_noOverlap _ cats hno) (haddrG _)
  obtain ⟨bs3, he3, hp3, hw3, hc3⟩ := planGroup_ok RegisterType.HoldingRegisters cats
    (staircase_of_noOverlap _ cats hno) (haddrG _)
  obtain ⟨bs4, he4, hp4, hw4, hc4⟩ := planGroup_ok RegisterType.InputRegisters cats
    (staircase_of_noOverlap _ cats hno) (haddrG _)
  have htf : Blocks.tryFrom cats = Except.ok (bs1 ++ bs2 ++ bs3 ++ bs4) := by
    simp only [Blocks.tryFrom, he1, he2, he3, he4]
    rfl
  refine ⟨bs1 ++ bs2 ++ bs3 ++ bs4, htf, ?_, ?_, ?_⟩
  · rw [blocksCfgs_append, blocksCfgs_append, blocksCfgs_append, hc1, hc2, hc3, hc4]
    refine List.Perm.trans ?_ (filter_partition_perm cats)
    exact ((((sortedGroup_perm _ cats).append (sortedGroup_perm _ cats)).append
      (sortedGroup_perm _ cats)).append (sortedGroup_perm _ cats))
  · intro b hb
    rcases List.mem_append.mp hb with hb' | hb4'
    · rcases List.mem_append.mp hb' with hb'' | hb3'
      · rcases List.mem_append.mp hb'' with hb1' | hb2'
        · obtain ⟨h1, h2, h3, h4⟩ := hp1 b hb1'
          exact ⟨h1, by rw [h4]; exact h2, h3⟩
        · obtain ⟨h1, h2, h3, h4⟩ := hp2 b hb2'
          exact ⟨h1, by rw [h4]; exact h2, h3⟩
      · obtain ⟨h1, h2, h3, h4⟩ := hp3 b hb3'
        exact ⟨h1, by rw [h4]; exact h2, h3⟩
    · obtain ⟨h1, h2, h3, h4⟩ := hp4 b hb4'
      exact ⟨h1, by rw [h4]; exact h2, h3⟩
  · have hcross : ∀ (xs ys : List Block) (rtx rty : RegisterType), rtx ≠ rty →
        (∀ b ∈ xs, b.register_type = rtx) → (∀ b ∈ ys, b.register_type = rty) →
        ∀ a ∈ xs, ∀ b ∈ ys, ¬ Mergeable a b ∧ ¬ Mergeable b a := by
      intro xs ys rtx rty hne hx hy a ha b hb
      constructor
      · intro ⟨hm1, _, _, _⟩
        rw [hx a ha, hy b hb] at hm1
        exact hne hm1
      · intro ⟨hm1, _, _, _⟩
        rw [hx a ha, hy b hb] at hm1
        exact hne hm1.symm
    rw [List.pairwise_append]
    refine ⟨?_, ?_, ?_⟩
    · rw [List.pairwise_append]
      refine ⟨?_, ?_, ?_⟩
      · rw [List.pairwise_append]
        refine ⟨hw1, hw2, ?_⟩
        exact hcross bs1 bs2 _ _ (by simp) (fun b hb => (hp1 b hb).2.2.2)
          (fun b hb => (hp2 b hb).2.2.2)
      · exact hw3
      · intro a ha b hb
        rcases List.mem_append.mp ha with ha1 | ha2
        · exact hcross bs1 bs3 _ _ (by simp) (fun b hb => (hp1 b hb).2.2.2)
            (fun b hb => (hp3 b hb).2.2.2) a ha1 b hb
        · exact hcross bs2 bs3 _ _ (by simp) (fun b hb => (hp2 b hb).2.2.2)
            (fun b hb => (hp3 b hb).2.2.2) a ha2 b hb
    · exact hw4
    · intro a ha b hb
      rcases List.mem_append.mp ha with ha' | ha3
      · rcases List.mem_append.mp ha' with ha1 | ha2
        · exact hcross bs1 bs4 _ _ (by simp) (fun b hb => (hp1 b hb).2.2.2)
            (fun b hb => (hp4 b hb).2.2.2) a ha1 b hb
        · exact hcross bs2 bs4 _ _ (by simp) (fun b hb => (hp2 b hb).2.2.2)
            (fun b hb => (hp4 b hb).2.2.2) a ha2 b hb
      · exact hcross bs3 bs4 _ _ (by simp) (fun b hb => (hp3 b hb).2.2.2)
          (fun b hb => (hp4 b hb).2.2.2) a ha3 b hb

/-- Witness for C2 at the spec's seed scenario 3 (holding points at
10/11/12, the third 2 words wide): the planner succeeds with the claimed
properties. -/
theorem c2_plan_correct_witness :
    ∃ bs, Blocks.tryFrom [scen3x, scen3y, scen3z] = Except.ok bs ∧
      (blocksCfgs bs).Perm [scen3x, scen3y, scen3z] ∧
      (∀ b ∈ bs, 1 ≤ b.len ∧ b.len ≤ maxLenFor b.register_type ∧ b.regions ≠ []) ∧
      bs.Pairwise (fun b1 b2 => ¬ Mergeable b1 b2 ∧ ¬ Mergeable b2 b1) :=
  c2_plan_correct [scen3x, scen3y, scen3z] (by decide) (by decide)

theorem pairwise_of_stairChain :
    ∀ l : List ModbusConfig, StairChain l → l.Pairwise Staircase := by
  intro l
  induction l with
  | nil => intro _; exact List.Pairwise.nil
  | cons p rest ih =>
    intro h
    cases rest with
    | nil => simp
    | cons q rest2 =>
      obtain ⟨h1, h2⟩ := h
      have hq := ih h2
      refine List.pairwise_cons.mpr ⟨?_, hq⟩
      intro x hx
      rcases List.mem_cons.mp hx with rfl | hx2
      · exact h1
      · have := (List.pairwise_cons.mp hq).1 x hx2
        rw [Staircase] at this ⊢
        omega

theorem stairChain_of_pairwise :
    ∀ l : List ModbusConfig, l.Pairwise Staircase → StairChain l := by
  intro l
  induction l with
  | nil => intro _; trivial
  | cons p rest ih =>
    intro h
    rcases List.pairwise_cons.mp h with ⟨hall, hrest⟩
    cases rest with
    | nil => trivial
    | cons q rest2 =>
      exact ⟨hall q (List.mem_cons_self _ _), ih hrest⟩

theorem stairBreak :
    ∀ l : List ModbusConfig, ¬ StairChain l →
    ∃ pre a b suf, l = pre ++ a :: b :: suf ∧ StairChain (pre ++ [a]) ∧
      b.register_address < a.register_address + a.data_type.quantity := by
  intro l
  induction l with
  | nil => intro h; exact absurd trivial h
  | cons p rest ih =>
    intro h
    cases rest with
    | nil => exact absurd trivial h
    | cons q rest2 =>
      by_cases hpq : p.register_address + p.data_type.quantity ≤ q.register_address
      · have h2 : ¬ StairChain (q :: rest2) := fun hc => h ⟨hpq, hc⟩
        rcases ih h2 with ⟨pre, a, b, suf, heq, hchain, hover⟩
        refine ⟨p :: pre, a, b, suf, by rw [List.cons_append, ← heq], ?_, hover⟩
        cases pre with
        | nil =>
          have ha : a = q := by
            have := heq
            rw [List.nil_append] at this
            exact (List.cons.injEq _ _ _ _ ▸ this).1.symm
          rw [List.nil_append] at hchain
          refine ⟨?_, hchain⟩
          rw [ha]
          exact hpq
        | cons x pre' =>
          have hx : x = q := by
            rw [List.cons_append] at heq
            exact (List.cons.injEq _ _ _ _ ▸ heq).1.symm
          rw [List.cons_append] at hchain ⊢
          refine ⟨?_, hchain⟩
          rw [hx]
          exact hpq
      · exact ⟨[], p, q, rest2, rfl, trivial, by omega⟩

theorem chainFrom_of_stairChain :
    ∀ (xs : List ModbusConfig) (x : ModbusConfig) (e : Nat),
    e ≤ x.register_address → StairChain (x :: xs) → chainFrom e (x :: xs) := by
  intro xs
  induction xs with
  | nil => intro x e he _; exact ⟨he, trivial⟩
  | cons y ys ih =>
    intro x e he hc
    obtain ⟨h1, h2⟩ := hc
    exact ⟨he, ih y _ h1 h2⟩

theorem chainFrom_tail (x : ModbusConfig) (l : List ModbusConfig)
    (h : StairChain (x :: l)) :
    chainFrom (x.register_address + x.data_type.quantity) l := by
  cases l with
  | nil => trivial
  | cons y ys =>
    obtain ⟨h1, h2⟩ := h
    exact chainFrom_of_stairChain ys y _ h1 h2

theorem endAfter_append_last (e : Nat) (l : List ModbusConfig) (a : ModbusConfig) :
    endAfter e (l ++ [a]) = a.register_address + a.data_type.quantity := by
  induction l generalizing e with
  | nil => rfl
  | cons p rest ih => exact ih _

theorem endAfter_nil (e : Nat) : endAfter e [] = e := rfl

theorem endAfter_cons (e : Nat) (p : ModbusConfig) (l : List ModbusConfig) :
    endAfter e (p :: l) =
      endAfter (p.register_address + p.data_type.quantity) l := rfl

theorem addrLE_before {l1 l2 : List ModbusConfig} {b : ModbusConfig}
    (h : (l1 ++ b :: l2).Pairwise
      (fun a c => a.register_address ≤ c.register_address)) :
    ∀ p ∈ l1, p.register_address ≤ b.register_address := by
  intro p hp
  rcases List.pairwise_append.mp h with ⟨_, _, hcross⟩
  exact hcross p hp b (List.mem_cons_self _ _)

theorem sweep_err (rt : RegisterType) :
    ∀ (mid : List ModbusConfig) (b : ModbusConfig) (suf : List ModbusConfig)
      (done : List Block) (cur : CurBlock),
    chainFrom (cur.start + curLenTrue cur) mid →
    b.register_address < endAfter (cur.start + curLenTrue cur) mid →
    (∀ p ∈ mid, p.register_address + p.data_type.quantity ≤ 65535) →
    (∀ p ∈ mid, p.register_address ≤ b.register_address) →
    cur.start ≤ b.register_address →
    1 ≤ curLenTrue cur →
    curLenTrue cur ≤ maxLenFor rt →
    cur.endExcl = cur.start + curLenTrue cur →
    cur.start + curLenTrue cur ≤ 65535 →
    ∃ bs, (mid ++ b :: suf).foldlM (sweepStep rt) (done, cur) =
        Except.error (BuildBlocksError.Overlap rt bs
          (endAfter (cur.start + curLenTrue cur) mid) b.register_address) ∧
      bs ≤ b.register_address := by
  intro mid
  induction mid with
  | nil =>
    intro b suf done cur _ hover _ _ hsb htw1 htwle hend hbound
    rw [endAfter_nil] at hover
    have hne : ¬ (b.register_address = cur.endExcl) := by
      rw [hend]; omega
    have hnlt : ¬ (cur.endExcl < b.register_address) := by
      rw [hend]; omega
    have hstep : sweepStep rt (done, cur) b =
        Except.error (BuildBlocksError.Overlap rt cur.start
          (cur.start + curLenTrue cur) b.register_address) := by
      simp only [sweepStep]
      rw [if_neg hne, if_neg hnlt, hend]
    refine ⟨cur.start, ?_, hsb⟩
    rw [endAfter_nil, List.nil_append, List.foldlM_cons, hstep]
    rfl
  | cons p mid' ih =>
    intro b suf done cur hchain hover hbnd hmidb hsb htw1 htwle hend hbound
    obtain ⟨hep, hchain'⟩ := hchain
    have hpb : p.register_address + p.data_type.quantity ≤ 65535 :=
      hbnd p (List.mem_cons_self _ _)
    have hpble : p.register_address ≤ b.register_address :=
      hmidb p (List.mem_cons_self _ _)
    have hw1 : 1 ≤ p.data_type.quantity := quantity_pos _
    have hw2 : p.data_type.quantity ≤ 2 := quantity_le_two _
    have hml : 120 ≤ maxLenFor rt := maxLenFor_ge rt
    have htw2000 : curLenTrue cur ≤ 2000 := le_trans htwle (maxLenFor_le rt)
    have hover' : b.register_address <
        endAfter (p.register_address + p.data_type.quantity) mid' := by
      rw [endAfter_cons] at hover
      exact hover
    have hE2 : (newCur p).start + curLenTrue (newCur p) =
        p.register_address + p.data_type.quantity := by
      rw [curLenTrue_newCur]
      simp [newCur]
    have hrestart : sweepStep rt (done, cur) p =
        Except.ok (done ++ [closeBlock rt cur], newCur p) →
        ∃ bs, ((p :: mid') ++ b :: suf).foldlM (sweepStep rt) (done, cur) =
          Except.error (BuildBlocksError.Overlap rt bs
            (endAfter (cur.start + curLenTrue cur) (p :: mid'))
            b.register_address) ∧
          bs ≤ b.register_address := by
      intro hstep
      obtain ⟨bs, hfold, hbs⟩ :=
        ih b suf (done ++ [closeBlock rt cur]) (newCur p)
          (by rw [hE2]; exact hchain')
          (by rw [hE2]; exact hover')
          (fun q hq => hbnd q (List.mem_cons_of_mem _ hq))
          (fun q hq => hmidb q (List.mem_cons_of_mem _ hq))
          hpble
          (by rw [curLenTrue_newCur]; omega)
          (by rw [curLenTrue_newCur]; omega)
          (by
            rw [hE2]
            show wadd16 p.register_address p.data_type.quantity = _
            rw [wadd16]
            omega)
          (by rw [hE2]; exact hpb)
      refine ⟨bs, ?_, hbs⟩
      rw [endAfter_cons, List.cons_append, List.foldlM_cons, hstep]
      rw [hE2] at hfold
      exact hfold
    by_cases heq : p.register_address = cur.endExcl
    · have heqn : p.register_address = cur.start + curLenTrue cur := by
        rw [heq, hend]
      by_cases hbr : maxLenFor rt <
          satAdd16 (wsub16 cur.endExcl cur.start) p.data_type.quantity
      · refine hrestart ?_
        simp only [sweepStep]
        rw [if_pos heq, if_pos hbr]
      · have htws : wsub16 cur.endExcl cur.start = curLenTrue cur := by
          rw [hend, wsub16]
          omega
        have hfit : curLenTrue cur + p.data_type.quantity ≤ maxLenFor rt := by
          rw [htws, satAdd16] at hbr
          omega
        set cur2 : CurBlock :=
          { start := cur.start
            endExcl := wadd16 cur.endExcl p.data_type.quantity
            regions := cur.regions ++
              [{ cfg := p, offset := wsub16 p.register_address cur.start,
                 width := p.data_type.quantity }] } with hcur2
        have hstep : sweepStep rt (done, cur) p = Except.ok (done, cur2) := by
          simp only [sweepStep]
          rw [if_pos heq, if_neg hbr]
        have hlen2 : curLenTrue cur2 = curLenTrue cur + p.data_type.quantity := by
          simp [hcur2, curLenTrue, List.map_append, List.sum_append]
        have hE2' : cur2.start + curLenTrue cur2 =
            p.register_address + p.data_type.quantity := by
          rw [hlen2]
          simp only [hcur2]
          omega
        have hend2 : cur2.endExcl = cur2.start + curLenTrue cur2 := by
          rw [hE2']
          simp only [hcur2, wadd16, hend]
          omega
        obtain ⟨bs, hfold, hbs⟩ :=
          ih b suf done cur2
            (by rw [hE2']; exact hchain')
            (by rw [hE2']; exact hover')
            (fun q hq => hbnd q (List.mem_cons_of_mem _ hq))
            (fun q hq => hmidb q (List.mem_cons_of_mem _ hq))
            (by simp only [hcur2]; exact hsb)
            (by rw [hlen2]; omega)
            (by rw [hlen2]; exact hfit)
            hend2
            (by rw [hE2']; exact hpb)
        refine ⟨bs, ?_, hbs⟩
        rw [endAfter_cons, List.cons_append, List.foldlM_cons, hstep]
        rw [hE2'] at hfold
        exact hfold
    · have hgt : cur.endExcl < p.register_address := by
        rw [hend]
        rw [hend] at heq
        omega
      refine hrestart ?_
      simp only [sweepStep]
      rw [if_neg heq, if_pos hgt]

theorem planGroup_err (rt : RegisterType) (cats : List ModbusConfig)
    (hbnd : ∀ p ∈ sortedGroup rt cats,
      p.register_address + p.data_type.quantity ≤ 65535)
    (hviol : ¬ StairChain (sortedGroup rt cats)) :
    ∃ pre a b suf bs,
      sortedGroup rt cats = pre ++ a :: b :: suf ∧
      StairChain (pre ++ [a]) ∧
      b.register_address < a.register_address + a.data_type.quantity ∧
      planGroup rt cats = Except.error (BuildBlocksError.Overlap rt bs
        (a.register_address + a.data_type.quantity) b.register_address) ∧
      bs ≤ b.register_address := by
  rcases stairBreak _ hviol with ⟨pre, a, b, suf, heq, hchain, hover⟩
  have hsorted : (sortedGroup rt cats).Pairwise
      (fun x y => x.register_address ≤ y.register_address) :=
    sortByAddr_sorted _
  cases pre with
  | nil =>
    rw [List.nil_append] at heq hchain
    have hsorted' := heq ▸ hsorted
    have hab : a.register_address ≤ b.register_address :=
      (List.pairwise_cons.mp hsorted').1 b (List.mem_cons_self _ _)
    have hae : a.register_address + a.data_type.quantity ≤ 65535 := by
      refine hbnd a ?_
      rw [heq]
      exact List.mem_cons_self _ _
    have hEa : (newCur a).start + curLenTrue (newCur a) =
        a.register_address + a.data_type.quantity := by
      rw [curLenTrue_newCur]
      simp [newCur]
    have hw1 : 1 ≤ a.data_type.quantity := quantity_pos _
    have hw2 : a.data_type.quantity ≤ 2 := quantity_le_two _
    have hml : 120 ≤ maxLenFor rt := maxLenFor_ge rt
    obtain ⟨bs, hfold, hbs⟩ :=
      sweep_err rt [] b suf [] (newCur a)
        trivial
        (by rw [endAfter_nil, hEa]; exact hover)
        (by intro q hq; exact absurd hq (List.not_mem_nil q))
        (by intro q hq; exact absurd hq (List.not_mem_nil q))
        (by simp only [newCur]; exact hab)
        (by rw [curLenTrue_newCur]; omega)
        (by rw [curLenTrue_newCur]; omega)
        (by
          rw [hEa]
          show wadd16 a.register_address a.data_type.quantity = _
          rw [wadd16]
          omega)
        (by rw [hEa]; exact hae)
    rw [endAfter_nil, hEa] at hfold
    rw [List.nil_append] at hfold
    refine ⟨[], a, b, suf, bs, heq, hchain, hover, ?_, hbs⟩
    simp only [planGroup, heq]
    rw [hfold]
    rfl
  | cons x pre' =>
    have heq' : sortedGroup rt cats = x :: (pre' ++ a :: b :: suf) := by
      rw [heq, List.cons_append]
    have hchain' : StairChain (x :: (pre' ++ [a])) := by
      rw [List.cons_append] at hchain
      exact hchain
    have heq2 : sortedGroup rt cats =
        (x :: (pre' ++ [a])) ++ (b :: suf) := by
      rw [heq']
      simp
    have hsorted2 := heq2 ▸ hsorted
    have hble := addrLE_before hsorted2
    have hxb : x.register_address ≤ b.register_address :=
      hble x (List.mem_cons_self _ _)
    have hmidb : ∀ p ∈ pre' ++ [a], p.register_address ≤ b.register_address :=
      fun p hp => hble p (List.mem_cons_of_mem _ hp)
    have hmidmem : ∀ p ∈ pre' ++ [a], p ∈ sortedGroup rt cats := by
      intro p hp
      rw [heq2]
      exact List.mem_append.mpr (Or.inl (List.mem_cons_of_mem _ hp))
    have hmidbnd : ∀ p ∈ pre' ++ [a],
        p.register_address + p.data_type.quantity ≤ 65535 :=
      fun p hp => hbnd p (hmidmem p hp)
    have hxe : x.register_address + x.data_type.quantity ≤ 65535 := by
      refine hbnd x ?_
      rw [heq2]
      exact List.mem_append.mpr (Or.inl (List.mem_cons_self _ _))
    have hEx : (newCur x).start + curLenTrue (newCur x) =
        x.register_address + x.data_type.quantity := by
      rw [curLenTrue_newCur]
      simp [newCur]
    have hw1 : 1 ≤ x.data_type.quantity := quantity_pos _
    have hw2 : x.data_type.quantity ≤ 2 := quantity_le_two _
    have hml : 120 ≤ maxLenFor rt := maxLenFor_ge rt
    have hchainF : chainFrom (x.register_address + x.data_type.quantity)
        (pre' ++ [a]) := chainFrom_tail x _ hchain'
    obtain ⟨bs, hfold, hbs⟩ :=
      sweep_err rt (pre' ++ [a]) b suf [] (newCur x)
        (by rw [hEx]; exact hchainF)
        (by rw [hEx, endAfter_append_last]; exact hover)
        hmidbnd
        hmidb
        (by simp only [newCur]; exact hxb)
        (by rw [curLenTrue_newCur]; omega)
        (by rw [curLenTrue_newCur]; omega)
        (by
          rw [hEx]
          show wadd16 x.register_address x.data_type.quantity = _
          rw [wadd16]
          omega)
        (by rw [hEx]; exact hxe)
    rw [endAfter_append_last] at hfold
    have hsplit : (pre' ++ [a]) ++ (b :: suf) = pre' ++ a :: b :: suf := by
      simp
    rw [hsplit] at hfold
    refine ⟨x :: pre', a, b, suf, bs, heq, hchain, hover, ?_, hbs⟩
    simp only [planGroup, heq']
    rw [hfold]
    rfl

theorem noOverlap_of_stairChains (cats : List ModbusConfig)
    (h : ∀ rt, StairChain (sortedGroup rt cats)) :
    NoClassOverlap cats := by
  have hfil : ∀ rt : RegisterType,
      (cats.filter (fun c => c.register_type = rt)).Pairwise
        (fun p q => p.register_type = q.register_type → IntervalDisjoint p q) := by
    intro rt
    have h1 : (sortedGroup rt cats).Pairwise Staircase :=
      pairwise_of_stairChain _ (h rt)
    have h2 : (sortedGroup rt cats).Pairwise IntervalDisjoint :=
      h1.imp (fun hst => Or.inl hst)
    have h3 : (cats.filter (fun c => c.register_type = rt)).Pairwise
        IntervalDisjoint :=
      ((sortedGroup_perm rt cats).pairwise_iff
        (fun hx => intervalDisjoint_symm hx)).mp h2
    refine h3.imp ?_
    intro u v hd
    exact fun _ => hd
  have hmemty : ∀ (rt : RegisterType) (p : ModbusConfig),
      p ∈ cats.filter (fun c => c.register_type = rt) →
      p.register_type = rt := by
    intro rt p hp
    have h5 := (List.mem_filter.mp hp).2
    simpa using h5
  have hcross : ∀ (rt1 rt2 : RegisterType), rt1 ≠ rt2 →
      ∀ p ∈ cats.filter (fun c => c.register_type = rt1),
      ∀ q ∈ cats.filter (fun c => c.register_type = rt2),
      (p.register_type = q.register_type → IntervalDisjoint p q) := by
    intro rt1 rt2 hne p hp q hq hty
    exact absurd ((hmemty rt1 p hp).symm.trans
      (hty.trans (hmemty rt2 q hq))) hne
  have hall : (cats.filter (fun c => c.register_type = RegisterType.Coils) ++
      cats.filter (fun c => c.register_type = RegisterType.DiscreteInputs) ++
      cats.filter (fun c => c.register_type = RegisterType.HoldingRegisters) ++
      cats.filter (fun c => c.register_type = RegisterType.InputRegisters)).Pairwise
        (fun p q => p.register_type = q.register_type → IntervalDisjoint p q) := by
    rw [List.pairwise_append]
    refine ⟨?_, hfil _, ?_⟩
    · rw [List.pairwise_append]
      refine ⟨?_, hfil _, ?_⟩
      · rw [List.pairwise_append]
        refine ⟨hfil _, hfil _, ?_⟩
        intro p hp q hq
        exact hcross _ _ (by decide) p hp q hq
      · intro p hp q hq
        rcases List.mem_append.mp hp with h1 | h1
        · exact hcross _ _ (by decide) p h1 q hq
        · exact hcross _ _ (by decide) p h1 q hq
    · intro p hp q hq
      rcases List.mem_append.mp hp with h1 | h1
      · rcases List.mem_append.mp h1 with h2 | h2
        · exact hcross _ _ (by decide) p h2 q hq
        · exact hcross _ _ (by decide) p h2 q hq
      · exact hcross _ _ (by decide) p h1 q hq
  exact ((filter_partition_perm cats).pairwise_iff
    (fun hx hr => intervalDisjoint_symm (hx hr.symm))).mp hall

/-- Counterexample for claim C3 as stated.  The claim demands that every
catalog holding two same-class points with overlapping address ranges fail
the whole plan with `Overlap`.  At the top of the `u16` address space the
check is defeated by wrap-around: a 2-word point at `0xFFFE` wraps
`end_excl` to `0`, so the 1-word point at `0xFFFF` — entirely inside the
first point's range — looks like a gap (`0 < 0xFFFF`) and `Blocks::try_from`
returns two blocks instead of failing. -/
theorem c3_counterexample :
    ¬ NoClassOverlap [c3PointA, c3PointB] ∧
    Blocks.tryFrom [c3PointA, c3PointB] =
      Except.ok
        [{ register_type := RegisterType.HoldingRegisters, start := 65534,
           len := 2,
           regions := [{ cfg := c3PointA, offset := 0, width := 2 }] },
         { register_type := RegisterType.HoldingRegisters, start := 65535,
           len := 1,
           regions := [{ cfg := c3PointB, offset := 0, width := 1 }] }] := by
  decide

/-- Claim C3 (corrected).  Overlap detection as claimed holds below the `u16`
wrap boundary: for every catalog whose points all satisfy
`register_address + width ≤ 0xFFFF` and which contains a same-class overlap,
`Blocks::try_from` fails the entire plan with
`Overlap{register_type, block_start, block_end, next_start}` taken from the
first offending adjacent pair of the failing class's address-sorted group:
`block_end` is the exclusive end of the point `a` preceding the first
violation, `next_start` is the offending point `b`'s address, and
`block_start` is at most that address. -/
theorem c3_overlap_amended (cats : List ModbusConfig)
    (hbnd : ∀ p ∈ cats, p.register_address + p.data_type.quantity ≤ 65535)
    (hov : ¬ NoClassOverlap cats) :
    ∃ rt bs pre a b suf,
      Blocks.tryFrom cats = Except.error (BuildBlocksError.Overlap rt bs
        (a.register_address + a.data_type.quantity) b.register_address) ∧
      sortedGroup rt cats = pre ++ a :: b :: suf ∧
      StairChain (pre ++ [a]) ∧
      b.register_address < a.register_address + a.data_type.quantity ∧
      bs ≤ b.register_address := by
  have hbnd' : ∀ rt : RegisterType, ∀ p ∈ sortedGroup rt cats,
      p.register_address + p.data_type.quantity ≤ 65535 :=
    fun rt p hp => hbnd p (mem_sortedGroup hp).1
  have haddr' : ∀ rt : RegisterType, ∀ p ∈ sortedGroup rt cats,
      p.register_address < 65536 := by
    intro rt p hp
    have h1 := hbnd' rt p hp
    have h2 := quantity_pos p.data_type
    omega
  by_cases h1 : StairChain (sortedGroup RegisterType.Coils cats)
  · by_cases h2 : StairChain (sortedGroup RegisterType.DiscreteInputs cats)
    · by_cases h3 : StairChain (sortedGroup RegisterType.HoldingRegisters cats)
      · by_cases h4 : StairChain (sortedGroup RegisterType.InputRegisters cats)
        · exact absurd (noOverlap_of_stairChains cats
            (fun rt => by cases rt <;> assumption)) hov
        · obtain ⟨bs1, he1, _, _, _⟩ := planGroup_ok RegisterType.Coils cats
            (pairwise_of_stairChain _ h1) (haddr' _)
          obtain ⟨bs2, he2, _, _, _⟩ := planGroup_ok RegisterType.DiscreteInputs
            cats (pairwise_of_stairChain _ h2) (haddr' _)
          obtain ⟨bs3, he3, _, _, _⟩ := planGroup_ok RegisterType.HoldingRegisters
            cats (pairwise_of_stairChain _ h3) (haddr' _)
          obtain ⟨pre, a, b, suf, bs, hsplit, hchain, hlt, herr, hbs⟩ :=
            planGroup_err RegisterType.InputRegisters cats (hbnd' _) h4
          refine ⟨RegisterType.InputRegisters, bs, pre, a, b, suf, ?_, hsplit,
            hchain, hlt, hbs⟩
          simp only [Blocks.tryFrom, he1, he2, he3, herr]
          rfl
      · obtain ⟨bs1, he1, _, _, _⟩ := planGroup_ok RegisterType.Coils cats
          (pairwise_of_stairChain _ h1) (haddr' _)
        obtain ⟨bs2, he2, _, _, _⟩ := planGroup_ok RegisterType.DiscreteInputs
          cats (pairwise_of_stairChain _ h2) (haddr' _)
        obtain ⟨pre, a, b, suf, bs, hsplit, hchain, hlt, herr, hbs⟩ :=
          planGroup_err RegisterType.HoldingRegisters cats (hbnd' _) h3
        refine ⟨RegisterType.HoldingRegisters, bs, pre, a, b, suf, ?_, hsplit,
          hchain, hlt, hbs⟩
        simp only [Blocks.tryFrom, he1, he2, herr]
        rfl
    · obtain ⟨bs1, he1, _, _, _⟩ := planGroup_ok RegisterType.Coils cats
        (pairwise_of_stairChain _ h1) (haddr' _)
      obtain ⟨pre, a, b, suf, bs, hsplit, hchain, hlt, herr, hbs⟩ :=
        planGroup_err RegisterType.DiscreteInputs cats (hbnd' _) h2
      refine ⟨RegisterType.DiscreteInputs, bs, pre, a, b, suf, ?_, hsplit,
        hchain, hlt, hbs⟩
      simp only [Blocks.tryFrom, he1, herr]
      rfl
  · obtain ⟨pre, a, b, suf, bs, hsplit, hchain, hlt, herr, hbs⟩ :=
      planGroup_err RegisterType.Coils cats (hbnd' _) h1
    refine ⟨RegisterType.Coils, bs, pre, a, b, suf, ?_, hsplit,
      hchain, hlt, hbs⟩
    simp only [Blocks.tryFrom, herr]
    rfl

/-- Witness for the corrected claim C3: the two overlapping holding-register
points of scenario 5 (a 2-word point at 10, a 1-word point at 11) satisfy the
no-wrap bound, overlap, and are rejected with `Overlap`. -/
theorem c3_overlap_amended_witness :
    (∀ p ∈ [scen5a, scen5b],
      p.register_address + p.data_type.quantity ≤ 65535) ∧
    ¬ NoClassOverlap [scen5a, scen5b] ∧
    ∃ rt bs pre a b suf,
      Blocks.tryFrom [scen5a, scen5b] =
        Except.error (BuildBlocksError.Overlap rt bs
          (a.register_address + a.data_type.quantity) b.register_address) ∧
      sortedGroup rt [scen5a, scen5b] = pre ++ a :: b :: suf ∧
      StairChain (pre ++ [a]) ∧
      b.register_address < a.register_address + a.data_type.quantity ∧
      bs ≤ b.register_address :=
  ⟨by decide, by decide,
    c3_overlap_amended [scen5a, scen5b] (by decide) (by decide)⟩
